import Mathlib

/-!
Verification of the DockerMonitor repository's monitoring/alerting core.

This file gives a shallow embedding of the container-metrics and alerting
pipeline of the repository (`core/alerts.py`, `core/monitor.py`,
`core/docker_client.py`) and proves the frozen claims about it.

Modelling conventions:
* Python `dict`s (insertion ordered, unique keys) are embedded as
  association lists `List (String × V)` together with the operations
  `dictFind?` (`d[k]` / `k in d`), `dictInsert` (`d[k] = v`) and
  `dictErase` (`del d[k]`).  States reachable through the Python API
  always have duplicate-free key lists; this is captured by explicit
  well-formedness predicates where needed.
* Python floats are embedded as rationals `ℚ`; the float literal `1.2`
  is embedded as the rational `12/10`, and Python `float('inf')` is a
  dedicated constructor of the `Thresh` type.
* `time.time()` is embedded as an explicit `now : ℚ` parameter of each
  call (one clock reading per call).
-/

namespace DockerMonitor

/-- Python dict lookup `d.get(k)` / `d[k]` on an association list:
returns the value of the first entry whose key is `k`. -/
def dictFind? {V : Type} : List (String × V) → String → Option V
  | [], _ => none
  | kv :: rest, k => if kv.1 = k then some kv.2 else dictFind? rest k

/-- Python dict assignment `d[k] = v`: replaces the value of the first
entry with key `k` in place, or appends a new entry at the end. -/
def dictInsert {V : Type} : List (String × V) → String → V → List (String × V)
  | [], k, v => [(k, v)]
  | kv :: rest, k, v => if kv.1 = k then (k, v) :: rest else kv :: dictInsert rest k v

/-- Python dict deletion `del d[k]`: removes the first entry with key `k`. -/
def dictErase {V : Type} : List (String × V) → String → List (String × V)
  | [], _ => []
  | kv :: rest, k => if kv.1 = k then rest else kv :: dictErase rest k

/-- The list of keys of an association list. -/
def keys {V : Type} (d : List (String × V)) : List String := d.map Prod.fst


/-- Erasing a list of keys one after the other, as the clean-up loop
`for alert_id in to_resolve: del self.active_alerts[alert_id]` does. -/
def eraseKeys {V : Type} (ks : List String) (d : List (String × V)) : List (String × V) :=
  ks.foldl dictErase d

/-- Alert status (`'active'` / `'resolved'` strings in the source). -/
inductive AlertStatus
  | active
  | resolved
deriving DecidableEq, Repr

/-- Threshold values are Python floats; `get_threshold` can return
`float('inf')` when a metric is configured nowhere. -/
inductive Thresh
  | val (q : ℚ)
  | inf
deriving DecidableEq, Repr

/-- The comparison `value > threshold` from `check_alerts`; nothing
exceeds `float('inf')`. -/
def thLt (t : Thresh) (value : ℚ) : Bool :=
  match t with
  | .val q => decide (q < value)
  | .inf => false

/-- One alert record, as the dict built in `check_alerts`
(`{'id': ..., 'container_id': ..., ..., 'status': 'active'}`); the
`resolve_time` key is only present once the alert is resolved. -/
structure Alert where
  id : String
  container_id : String
  container_name : String
  metric : String
  threshold : Thresh
  value : ℚ
  start_time : ℚ
  last_updated : ℚ
  status : AlertStatus
  resolve_time : Option ℚ
deriving DecidableEq, Repr

/-- The fields of one container's metrics dict that `check_alerts`
reads: the optional `'name'` key and the two monitored metric keys. -/
structure CMetrics where
  name : Option String
  cpu_percent : Option ℚ
  memory_percent : Option ℚ
deriving DecidableEq, Repr

/-- The lookup `metric in container_metrics` / `container_metrics[metric]`
for the two metric names that `check_alerts` iterates over. -/
def CMetrics.get (cm : CMetrics) (metric : String) : Option ℚ :=
  if metric = "cpu_percent" then cm.cpu_percent
  else if metric = "memory_percent" then cm.memory_percent
  else none

/-- State of an `AlertManager` (callbacks are omitted: they receive the
new-alert list but never influence the manager's own state). -/
structure AlertManager where
  default_thresholds : List (String × ℚ)
  container_thresholds : List (String × List (String × ℚ))
  active_alerts : List (String × Alert)
  alert_history : List Alert
deriving DecidableEq, Repr

/-- `AlertManager.__init__`: default thresholds of 80.0 for both
metrics, everything else empty. -/
def freshManager : AlertManager :=
  { default_thresholds := [("cpu_percent", 80), ("memory_percent", 80)]
    container_thresholds := []
    active_alerts := []
    alert_history := [] }

/-- `AlertManager.get_threshold`: container-specific threshold when
present, else the default, else `float('inf')`. -/
def get_threshold (mgr : AlertManager) (container_id metric : String) : Thresh :=
  match dictFind? mgr.container_thresholds container_id with
  | some ct =>
    match dictFind? ct metric with
    | some v => Thresh.val v
    | none =>
      match dictFind? mgr.default_thresholds metric with
      | some v => Thresh.val v
      | none => Thresh.inf
  | none =>
    match dictFind? mgr.default_thresholds metric with
    | some v => Thresh.val v
    | none => Thresh.inf

/-- `AlertManager.set_default_threshold`. -/
def set_default_threshold (mgr : AlertManager) (metric : String) (value : ℚ) : AlertManager :=
  { mgr with default_thresholds := dictInsert mgr.default_thresholds metric value }

/-- `AlertManager.set_container_threshold`. -/
def set_container_threshold (mgr : AlertManager) (container_id metric : String) (value : ℚ) : AlertManager :=
  let ct := (dictFind? mgr.container_thresholds container_id).getD []
  { mgr with container_thresholds :=
      dictInsert mgr.container_thresholds container_id (dictInsert ct metric value) }

/-- The alert key `f"{container_id}_{metric}"`. -/
def mkKey (container_id metric : String) : String :=
  container_id ++ "_" ++ metric

/-- The mutable state threaded through one `check_alerts` call:
the active-alert dict, the history list, the accumulated `new_alerts`
return value, and the `checked_alerts` set of (container, metric) pairs. -/
structure CheckSt where
  active : List (String × Alert)
  history : List Alert
  new_alerts : List Alert
  checked : List (String × String)
deriving Repr

/-- The resolved copy appended to the history when an alert is
resolved: status and `resolve_time` are set before copying. -/
def resolvedCopy (a : Alert) (now : ℚ) : Alert :=
  { a with status := .resolved, resolve_time := some now }

/-- The fresh alert dict built by `check_alerts` when a metric first
crosses its threshold. -/
def mkNewAlert (container_id container_name metric : String) (threshold : Thresh)
    (value now : ℚ) : Alert :=
  { id := mkKey container_id metric
    container_id := container_id
    container_name := container_name
    metric := metric
    threshold := threshold
    value := value
    start_time := now
    last_updated := now
    status := .active
    resolve_time := none }

/-- The body of `check_alerts`'s inner loop for one `(container, metric)`
pair: skip if the metric is absent; otherwise record the pair as checked
and create, update or resolve the alert for it. -/
def processMetric (mgr : AlertManager) (now : ℚ) (container_id : String) (cm : CMetrics)
    (metric : String) (st : CheckSt) : CheckSt :=
  match cm.get metric with
  | none => st
  | some value =>
    let threshold := get_threshold mgr container_id metric
    let alert_id := mkKey container_id metric
    let st := { st with checked := (container_id, metric) :: st.checked }
    if thLt threshold value then
      match dictFind? st.active alert_id with
      | none =>
        let a := mkNewAlert container_id (cm.name.getD "unknown") metric threshold value now
        { st with active := dictInsert st.active alert_id a
                , new_alerts := st.new_alerts ++ [a]
                , history := st.history ++ [a] }
      | some a0 =>
        { st with active := dictInsert st.active alert_id { a0 with value := value, last_updated := now } }
    else
      match dictFind? st.active alert_id with
      | none => st
      | some a0 =>
        { st with active := dictErase st.active alert_id
                , history := st.history ++ [resolvedCopy a0 now] }

/-- One iteration of the outer loop of `check_alerts`: the inner
`for metric in ['cpu_percent', 'memory_percent']` loop unrolled. -/
def processContainer (mgr : AlertManager) (now : ℚ) (st : CheckSt) (e : String × CMetrics) : CheckSt :=
  processMetric mgr now e.1 e.2 "memory_percent"
    (processMetric mgr now e.1 e.2 "cpu_percent" st)

/-- Whether an active-alert entry survives the auto-resolve pass:
its stored `(container_id, metric)` pair was checked this tick. -/
def checkedEntry (checked : List (String × String)) (kv : String × Alert) : Bool :=
  decide ((kv.2.container_id, kv.2.metric) ∈ checked)

/-- The auto-resolve pass of `check_alerts`: every active alert whose
pair was not checked this tick is marked resolved in place, a copy is
appended to the history, and its key is collected in `to_resolve`;
afterwards all collected keys are deleted from the active dict. -/
def autoResolve (now : ℚ) (st : CheckSt) : CheckSt :=
  let stale := st.active.filter (fun kv => ! checkedEntry st.checked kv)
  let activeMut := st.active.map
    (fun kv => if checkedEntry st.checked kv then kv else (kv.1, resolvedCopy kv.2 now))
  { st with history := st.history ++ stale.map (fun kv => resolvedCopy kv.2 now)
          , active := eraseKeys (stale.map Prod.fst) activeMut }

/-- The check state at the start of a `check_alerts` call: the manager's
current dicts, an empty `new_alerts` list and an empty `checked` set. -/
def initSt (mgr : AlertManager) : CheckSt :=
  { active := mgr.active_alerts
    history := mgr.alert_history
    new_alerts := []
    checked := [] }

/-- The result of one `check_alerts` call: the updated manager and the
returned list of new alerts. -/
structure CheckResult where
  state : AlertManager
  new_alerts : List Alert
deriving Repr

/-- `AlertManager.check_alerts`: process every container of the snapshot
map in order, then auto-resolve all active alerts whose pair was not
seen this tick. -/
def check_alerts (mgr : AlertManager) (metrics : List (String × CMetrics)) (now : ℚ) : CheckResult :=
  let st0 : CheckSt :=
    { active := mgr.active_alerts, history := mgr.alert_history, new_alerts := [], checked := [] }
  let st1 := metrics.foldl (processContainer mgr now) st0
  let st2 := autoResolve now st1
  { state := { mgr with active_alerts := st2.active, alert_history := st2.history }
    new_alerts := st2.new_alerts }

/-- Running a sequence of `check_alerts` calls, each with its snapshot
map and its clock reading. -/
def runChecks (mgr : AlertManager) (inputs : List (List (String × CMetrics) × ℚ)) : AlertManager :=
  inputs.foldl (fun m p => (check_alerts m p.1 p.2).state) mgr

/-- The per-container history update of `ContainerMonitor._monitor_loop`:
`append` the tick's metrics, then `pop(0)` when the buffer holds more
than 1000 data points. -/
def histAppend {M : Type} (buf : List M) (x : M) : List M :=
  let buf' := buf ++ [x]
  if 1000 < buf'.length then buf'.eraseIdx 0 else buf'

/-- Python `int()` on a float/rational: truncation toward zero. -/
def pyInt (q : ℚ) : ℤ :=
  if q < 0 then ⌈q⌉ else ⌊q⌋

/-- The adaptive-interval logic of one `_monitor_loop` tick: given the
current `refresh_interval`, the `consecutive_long_collections` counter
and the tick's measured `collection_time`, return the new interval and
counter.  A slow tick increments the counter and, from the third
consecutive slow tick on, sets the interval to `int(collection_time *
1.2)`; a fast tick resets the counter. -/
def tickAdjust (interval : ℤ) (consecutive : ℕ) (collection_time : ℚ) : ℤ × ℕ :=
  if (interval : ℚ) < collection_time then
    let consecutive' := consecutive + 1
    if 3 ≤ consecutive' ∧ (interval : ℚ) < collection_time then
      (pyInt (collection_time * (12 / 10)), consecutive')
    else
      (interval, consecutive')
  else
    (interval, 0)

/-- Folding `tickAdjust` over a sequence of measured collection times. -/
def runTicks (s : ℤ × ℕ) (times : List ℚ) : ℤ × ℕ :=
  times.foldl (fun p t => tickAdjust p.1 p.2 t) s

/-- The `cpu_usage` sub-dict of a Docker stats blob: cumulative total
usage and the per-core usage array, either possibly missing. -/
structure CpuUsage where
  total_usage : Option ℤ
  percpu_usage : Option (List ℤ)
deriving DecidableEq, Repr

/-- The `cpu_stats` / `precpu_stats` sub-dict of a Docker stats blob. -/
structure CpuStats where
  cpu_usage : Option CpuUsage
  system_cpu_usage : Option ℤ
  online_cpus : Option ℕ
deriving DecidableEq, Repr

/-- The `memory_stats` sub-dict of a Docker stats blob.  `none` at the
blob level stands for an absent (or empty, hence falsy) dict; a present
dict may still lack the `usage` / `limit` keys. -/
structure MemoryStats where
  usage : Option ℤ
  limit : Option ℤ
deriving DecidableEq, Repr

/-- The parts of a raw Docker stats blob read by the CPU and memory
derivations of `DockerClient.get_container_stats`. -/
structure StatsBlob where
  cpu_stats : Option CpuStats
  precpu_stats : Option CpuStats
  memory_stats : Option MemoryStats
deriving DecidableEq, Repr

/-- `stats_obj.get(which, {}).get('cpu_usage', {}).get('total_usage', 0)`. -/
def totalUsage (cs : Option CpuStats) : ℤ :=
  match cs with
  | none => 0
  | some c =>
    match c.cpu_usage with
    | none => 0
    | some u => u.total_usage.getD 0

/-- `stats_obj.get(which, {}).get('system_cpu_usage', 0)`. -/
def sysUsage (cs : Option CpuStats) : ℤ :=
  match cs with
  | none => 0
  | some c => c.system_cpu_usage.getD 0

/-- The online-CPU-count fallback chain of `get_container_stats`:
`online_cpus` when truthy, else the length of `percpu_usage` when that
key chain is present, with a final fallback to 1 when still falsy. -/
def onlineCpus (b : StatsBlob) : ℕ :=
  let oc := match b.cpu_stats with
    | none => 0
    | some c => c.online_cpus.getD 0
  let oc := if oc = 0 then
      match b.cpu_stats with
      | some c =>
        match c.cpu_usage with
        | some u =>
          match u.percpu_usage with
          | some l => l.length
          | none => 0
        | none => 0
      | none => 0
    else oc
  if oc = 0 then 1 else oc

/-- The CPU-percent derivation of `get_container_stats`: deltas of the
cumulative counters, guarded by the truthiness of both system-usage
counters and by the positivity of both deltas. -/
def cpuPercentOf (b : StatsBlob) : ℚ :=
  let cpu_delta := totalUsage b.cpu_stats - totalUsage b.precpu_stats
  let system_cpu_usage := sysUsage b.cpu_stats
  let pre_system_cpu_usage := sysUsage b.precpu_stats
  if system_cpu_usage ≠ 0 ∧ pre_system_cpu_usage ≠ 0 then
    let system_delta := system_cpu_usage - pre_system_cpu_usage
    if 0 < system_delta ∧ 0 < cpu_delta then
      (cpu_delta : ℚ) / (system_delta : ℚ) * (onlineCpus b : ℚ) * 100
    else 0
  else 0

/-- The memory-percent derivation of `get_container_stats`: skipped for
an absent/empty `memory_stats` dict; otherwise `usage` defaults to 0,
`limit` defaults to 1, and the percentage is computed when the limit is
positive. -/
def memPercentOf (b : StatsBlob) : ℚ :=
  match b.memory_stats with
  | none => 0
  | some ms =>
    let memory_usage := ms.usage.getD 0
    let memory_limit := ms.limit.getD 1
    if 0 < memory_limit then (memory_usage : ℚ) / (memory_limit : ℚ) * 100 else 0

/-- A container descriptor as returned by `list_containers`:
the fields read by `_collect_container_stats`. -/
structure ContainerD where
  idd : String
  names : List String
  state : String
deriving DecidableEq, Repr

/-- Python `str.lstrip('/')`: drop leading slashes. -/
def lstripSlash (s : String) : String :=
  String.mk (s.data.dropWhile (fun c => c = '/'))

/-- `container['Names'][0].lstrip('/') if container['Names'] else 'unknown'`. -/
def containerName (c : ContainerD) : String :=
  match c.names with
  | [] => "unknown"
  | n :: _ => lstripSlash n

/-- The stats dict returned by `get_container_stats` (always carries all
of these keys). -/
structure Stats where
  cpu_percent : ℚ
  memory_usage : ℤ
  memory_percent : ℚ
  network_rx : ℤ
  network_tx : ℤ
deriving DecidableEq, Repr

/-- The per-tick snapshot record built by `_collect_container_stats`. -/
structure SnapMetrics where
  idd : String
  name : String
  status : String
  cpu_percent : ℚ
  memory_usage : ℤ
  memory_percent : ℚ
  network_rx : ℤ
  network_tx : ℤ
  timestamp : ℚ
deriving DecidableEq, Repr

/-- `ContainerMonitor._collect_container_stats`: fetch stats for one
container; a raised exception (`fetch = none`) yields `(id, None)`. -/
def collectOne (fetch : String → Option Stats) (now : ℚ) (c : ContainerD) :
    String × Option SnapMetrics :=
  (c.idd,
    match fetch c.idd with
    | none => none
    | some st =>
      some { idd := c.idd
             name := containerName c
             status := c.state
             cpu_percent := st.cpu_percent
             memory_usage := st.memory_usage
             memory_percent := st.memory_percent
             network_rx := st.network_rx
             network_tx := st.network_tx
             timestamp := now })

/-- One result of `_collect_metrics`'s result loop: a container whose
stats fetch succeeded is inserted into the result map, a failed one is
omitted.  The worker pool's completion order is nondeterministic; the
aggregation is embedded in list order, and the claims proved about it
are order-independent membership facts. -/
def collectStep (fetch : String → Option Stats) (now : ℚ)
    (m : List (String × SnapMetrics)) (c : ContainerD) : List (String × SnapMetrics) :=
  match (collectOne fetch now c).2 with
  | some cm => dictInsert m (collectOne fetch now c).1 cm
  | none => m

/-- The aggregation loop of `_collect_metrics`: fold `collectStep` over
the container list starting from an empty result map. -/
def collectMetrics (fetch : String → Option Stats) (now : ℚ) (containers : List ContainerD) :
    List (String × SnapMetrics) :=
  containers.foldl (collectStep fetch now) []

/-- The metric names `check_alerts` iterates over. -/
def ML : List String := ["cpu_percent", "memory_percent"]

/-- Consistency of one active-alert entry: its dict key is derived from
its stored container id and metric, and the metric is one of the two
monitored ones.  Every entry that `check_alerts` ever stores has this
shape. -/
def EntryWF (kv : String × Alert) : Prop :=
  kv.1 = mkKey kv.2.container_id kv.2.metric ∧ kv.2.metric ∈ ML

/-- Well-formedness of an active-alert dict: duplicate-free keys (as in
every Python dict) and consistent entries. -/
def ActiveWF (d : List (String × Alert)) : Prop :=
  (keys d).Nodup ∧ ∀ kv ∈ d, EntryWF kv

/-- Well-formedness of an `AlertManager` state; holds for the fresh
manager and is preserved by every operation. -/
def WF (mgr : AlertManager) : Prop :=
  ActiveWF mgr.active_alerts

/-- The `(container_id, metric)` pairs stored in an active-alert dict. -/
def activePairs (d : List (String × Alert)) : List (String × String) :=
  d.map (fun kv => (kv.2.container_id, kv.2.metric))

/-- The difference of the cumulative container-CPU counters. -/
def cpuDelta (b : StatsBlob) : ℤ :=
  totalUsage b.cpu_stats - totalUsage b.precpu_stats

/-- The difference of the cumulative system-CPU counters. -/
def sysDelta (b : StatsBlob) : ℤ :=
  sysUsage b.cpu_stats - sysUsage b.precpu_stats

/-- The reported `online_cpus` value (0 when absent, mirroring
`.get('online_cpus', 0)`). -/
def ocReported (b : StatsBlob) : ℕ :=
  match b.cpu_stats with
  | none => 0
  | some c => c.online_cpus.getD 0

/-- The length of the per-core usage array (0 when the key chain is
absent). -/
def percpuLen (b : StatsBlob) : ℕ :=
  match b.cpu_stats with
  | none => 0
  | some c =>
    match c.cpu_usage with
    | none => 0
    | some u =>
      match u.percpu_usage with
      | none => 0
      | some l => l.length

/-- A stats blob whose previous-sample system counter is absent while
both deltas are positive: the previous counter defaults to 0 and is
falsy, so the code skips the CPU computation entirely. -/
def blobPreAbsent : StatsBlob :=
  { cpu_stats := some
      { cpu_usage := some { total_usage := some 50, percpu_usage := none }
        system_cpu_usage := some 100
        online_cpus := some 1 }
    precpu_stats := some
      { cpu_usage := some { total_usage := some 0, percpu_usage := none }
        system_cpu_usage := none
        online_cpus := none }
    memory_stats := none }

/-- A well-behaved two-sample stats blob (deltas 100 and 200, two cores
reported via the per-core array). -/
def blobTwoCore : StatsBlob :=
  { cpu_stats := some
      { cpu_usage := some { total_usage := some 150, percpu_usage := some [1, 2] }
        system_cpu_usage := some 300
        online_cpus := none }
    precpu_stats := some
      { cpu_usage := some { total_usage := some 50, percpu_usage := none }
        system_cpu_usage := some 100
        online_cpus := none }
    memory_stats := none }

/-- A stats blob whose `memory_stats` dict is present but lacks the
`limit` key: the code defaults the limit to 1, not 0. -/
def blobNoLimit : StatsBlob :=
  { cpu_stats := none
    precpu_stats := none
    memory_stats := some { usage := some 5, limit := none } }

/-- A stats blob with an explicit zero memory limit. -/
def blobZeroLimit : StatsBlob :=
  { cpu_stats := none
    precpu_stats := none
    memory_stats := some { usage := some 5, limit := some 0 } }

/-- A stats blob with a complete `memory_stats` dict: usage 50 of
limit 200. -/
def blobMem : StatsBlob :=
  { cpu_stats := none
    precpu_stats := none
    memory_stats := some { usage := some 50, limit := some 200 } }

/-- A snapshot map giving container `"A"` a CPU reading of 85 (above the
default threshold 80). -/
def snapA : List (String × CMetrics) :=
  [("A", { name := some "web", cpu_percent := some 85, memory_percent := some 30 })]

/-- A one-entry active-alert dict for witnesses: an active CPU alert for
container `"A"`. -/
def alertA : Alert :=
  mkNewAlert "A" "web" "cpu_percent" (Thresh.val 80) 85 0

/-- A manager holding exactly the active alert `alertA`. -/
def mgrA : AlertManager :=
  { freshManager with active_alerts := [(mkKey "A" "cpu_percent", alertA)] }

-- ## Association-list lemmas

@[simp] theorem dictFind?_nil {V : Type} (k : String) : dictFind? ([] : List (String × V)) k = none := rfl

theorem dictFind?_cons {V : Type} (kv : String × V) (rest : List (String × V)) (k : String) :
    dictFind? (kv :: rest) k = if kv.1 = k then some kv.2 else dictFind? rest k := rfl

@[simp] theorem keys_nil {V : Type} : keys ([] : List (String × V)) = [] := rfl

@[simp] theorem keys_cons {V : Type} (kv : String × V) (rest : List (String × V)) :
    keys (kv :: rest) = kv.1 :: keys rest := rfl

theorem dictFind?_isSome_iff {V : Type} (d : List (String × V)) (k : String) :
    (dictFind? d k).isSome ↔ k ∈ keys d := by
  induction d with
  | nil => simp
  | cons kv rest ih =>
    by_cases h : kv.1 = k
    · simp [dictFind?_cons, h]
    · simp [dictFind?_cons, h, ih, Ne.symm h]

theorem dictFind?_eq_none_iff {V : Type} (d : List (String × V)) (k : String) :
    dictFind? d k = none ↔ k ∉ keys d := by
  rw [← dictFind?_isSome_iff, Option.isSome_iff_exists]
  cases dictFind? d k <;> simp

theorem dictFind?_mem {V : Type} {d : List (String × V)} {k : String} {v : V}
    (h : dictFind? d k = some v) : (k, v) ∈ d := by
  induction d with
  | nil => simp at h
  | cons kv rest ih =>
    rw [dictFind?_cons] at h
    by_cases hk : kv.1 = k
    · rw [if_pos hk] at h
      obtain ⟨k1, v1⟩ := kv
      obtain rfl : v1 = v := by simpa using h
      obtain rfl : k1 = k := hk
      exact List.mem_cons_self _ _
    · rw [if_neg hk] at h
      exact List.mem_cons_of_mem _ (ih h)

theorem mem_keys_dictInsert {V : Type} (d : List (String × V)) (k : String) (v : V) (a : String) :
    a ∈ keys (dictInsert d k v) ↔ a ∈ keys d ∨ a = k := by
  induction d with
  | nil => simp [dictInsert]
  | cons kv rest ih =>
    by_cases h : kv.1 = k
    · subst h
      simp [dictInsert]
      tauto
    · simp [dictInsert, h, ih]
      tauto

theorem dictFind?_dictInsert_self {V : Type} (d : List (String × V)) (k : String) (v : V) :
    dictFind? (dictInsert d k v) k = some v := by
  induction d with
  | nil => simp [dictInsert, dictFind?_cons]
  | cons kv rest ih =>
    by_cases h : kv.1 = k <;> simp [dictInsert, h, dictFind?_cons, ih]

theorem dictFind?_dictInsert_ne {V : Type} (d : List (String × V)) (k k' : String) (v : V)
    (h : k' ≠ k) : dictFind? (dictInsert d k v) k' = dictFind? d k' := by
  induction d with
  | nil => simp [dictInsert, dictFind?_cons, Ne.symm h]
  | cons kv rest ih =>
    by_cases hk : kv.1 = k
    · subst hk
      simp [dictInsert, dictFind?_cons, Ne.symm h]
    · simp [dictInsert, hk, dictFind?_cons, ih]

theorem dictFind?_dictErase_ne {V : Type} (d : List (String × V)) (k k' : String)
    (h : k' ≠ k) : dictFind? (dictErase d k) k' = dictFind? d k' := by
  induction d with
  | nil => simp [dictErase]
  | cons kv rest ih =>
    by_cases hk : kv.1 = k
    · subst hk
      simp [dictErase, dictFind?_cons, Ne.symm h]
    · simp [dictErase, hk, dictFind?_cons, ih]

theorem mem_keys_dictErase {V : Type} (d : List (String × V)) (k a : String)
    (h : a ∈ keys (dictErase d k)) : a ∈ keys d := by
  induction d with
  | nil => simp [dictErase] at h
  | cons kv rest ih =>
    by_cases hk : kv.1 = k
    · simp only [dictErase, if_pos hk] at h
      exact List.mem_cons_of_mem _ h
    · simp only [dictErase, if_neg hk, keys_cons, List.mem_cons] at h ⊢
      tauto

theorem keys_dictErase_sublist {V : Type} (d : List (String × V)) (k : String) :
    (keys (dictErase d k)).Sublist (keys d) := by
  induction d with
  | nil => simp [dictErase]
  | cons kv rest ih =>
    by_cases hk : kv.1 = k
    · simp only [dictErase, if_pos hk]
      exact (List.sublist_cons_self kv rest).map Prod.fst
    · simpa [dictErase, hk] using ih.cons₂ kv.1


theorem nodup_keys_dictInsert {V : Type} (d : List (String × V)) (k : String) (v : V)
    (h : (keys d).Nodup) : (keys (dictInsert d k v)).Nodup := by
  induction d with
  | nil => simp [dictInsert]
  | cons kv rest ih =>
    simp only [keys_cons, List.nodup_cons] at h
    by_cases hk : kv.1 = k
    · subst hk
      simpa [dictInsert] using h
    · simp only [dictInsert, if_neg hk, keys_cons, List.nodup_cons]
      refine ⟨?_, ih h.2⟩
      intro hmem
      rcases (mem_keys_dictInsert rest k v kv.1).1 hmem with h' | h'
      · exact h.1 h'
      · exact hk h'

theorem nodup_keys_dictErase {V : Type} (d : List (String × V)) (k : String)
    (h : (keys d).Nodup) : (keys (dictErase d k)).Nodup :=
  (keys_dictErase_sublist d k).nodup h

theorem mem_dictInsert {V : Type} {d : List (String × V)} {k : String} {v : V} {kv : String × V}
    (h : kv ∈ dictInsert d k v) : kv ∈ d ∨ kv = (k, v) := by
  induction d with
  | nil => simpa [dictInsert] using h
  | cons kv' rest ih =>
    by_cases hk : kv'.1 = k
    · simp only [dictInsert, if_pos hk, List.mem_cons] at h
      rcases h with h | h
      · right; exact h
      · left; exact List.mem_cons_of_mem _ h
    · simp only [dictInsert, if_neg hk, List.mem_cons] at h
      rcases h with h | h
      · left; simp [h]
      · rcases ih h with h' | h'
        · left; exact List.mem_cons_of_mem _ h'
        · right; exact h'

theorem mem_dictErase {V : Type} {d : List (String × V)} {k : String} {kv : String × V}
    (h : kv ∈ dictErase d k) : kv ∈ d := by
  induction d with
  | nil => simp [dictErase] at h
  | cons kv' rest ih =>
    by_cases hk : kv'.1 = k
    · simp only [dictErase, if_pos hk] at h
      exact List.mem_cons_of_mem _ h
    · simp only [dictErase, if_neg hk, List.mem_cons] at h ⊢
      tauto

theorem length_dictInsert_new {V : Type} (d : List (String × V)) (k : String) (v : V)
    (h : dictFind? d k = none) : (dictInsert d k v).length = d.length + 1 := by
  induction d with
  | nil => simp [dictInsert]
  | cons kv rest ih =>
    rw [dictFind?_cons] at h
    by_cases hk : kv.1 = k
    · simp [hk] at h
    · simp only [if_neg hk] at h
      simp [dictInsert, hk, ih h]

theorem length_dictInsert_existing {V : Type} (d : List (String × V)) (k : String) (v : V)
    (h : (dictFind? d k).isSome) : (dictInsert d k v).length = d.length := by
  induction d with
  | nil => simp at h
  | cons kv rest ih =>
    rw [dictFind?_cons] at h
    by_cases hk : kv.1 = k
    · simp [dictInsert, hk]
    · simp only [if_neg hk] at h
      simp [dictInsert, hk, ih h]

theorem length_dictErase_existing {V : Type} (d : List (String × V)) (k : String)
    (h : (dictFind? d k).isSome) : d.length = (dictErase d k).length + 1 := by
  induction d with
  | nil => simp at h
  | cons kv rest ih =>
    rw [dictFind?_cons] at h
    by_cases hk : kv.1 = k
    · simp [dictErase, hk]
    · simp only [if_neg hk] at h
      simp [dictErase, hk, ih h]

-- ## Alert-key lemmas

theorem mkKey_data (c m : String) : (mkKey c m).data = c.data ++ '_' :: m.data := by
  simp [mkKey, String.data_append]

theorem string_eq_of_data {a b : String} (h : a.data = b.data) : a = b := by
  cases a
  cases b
  exact congrArg String.mk h

theorem mkKey_inj_same {c1 c2 m : String} (h : mkKey c1 m = mkKey c2 m) : c1 = c2 := by
  have hd : c1.data ++ '_' :: m.data = c2.data ++ '_' :: m.data := by
    have := congrArg String.data h
    rwa [mkKey_data, mkKey_data] at this
  exact string_eq_of_data (List.append_inj' hd rfl).1

theorem mkKey_cross (c1 c2 : String) : mkKey c1 "cpu_percent" ≠ mkKey c2 "memory_percent" := by
  intro h
  have hd : c1.data ++ '_' :: "cpu_percent".data = c2.data ++ '_' :: "memory_percent".data := by
    have := congrArg String.data h
    rwa [mkKey_data, mkKey_data] at this
  have hsplit : ('_' :: "memory_percent".data : List Char) =
      ['_', 'm', 'e'] ++ "mory_percent".data := by decide
  rw [hsplit, ← List.append_assoc] at hd
  have h2 := List.append_inj' hd (by decide)
  exact absurd h2.2 (by decide)

theorem mkKey_inj {c1 c2 m1 m2 : String} (h1 : m1 ∈ ML) (h2 : m2 ∈ ML)
    (h : mkKey c1 m1 = mkKey c2 m2) : c1 = c2 ∧ m1 = m2 := by
  simp only [ML, List.mem_cons, List.not_mem_nil, or_false] at h1 h2
  rcases h1 with rfl | rfl <;> rcases h2 with rfl | rfl
  · exact ⟨mkKey_inj_same h, rfl⟩
  · exact absurd h (mkKey_cross c1 c2)
  · exact absurd h.symm (mkKey_cross c2 c1)
  · exact ⟨mkKey_inj_same h, rfl⟩

theorem mkKey_ne_of_ne_container {c1 c2 m1 m2 : String} (h1 : m1 ∈ ML) (h2 : m2 ∈ ML)
    (hc : c1 ≠ c2) : mkKey c1 m1 ≠ mkKey c2 m2 :=
  fun h => hc (mkKey_inj h1 h2 h).1

theorem mkKey_cpu_ne_mem (c1 c2 : String) :
    mkKey c1 "cpu_percent" ≠ mkKey c2 "memory_percent" :=
  mkKey_cross c1 c2

-- ## Case equations for processMetric

theorem processMetric_absent (mgr : AlertManager) (now : ℚ) (cid : String) (cm : CMetrics)
    (metric : String) (st : CheckSt) (h : cm.get metric = none) :
    processMetric mgr now cid cm metric st = st := by
  simp [processMetric, h]

theorem processMetric_create (mgr : AlertManager) (now : ℚ) (cid : String) (cm : CMetrics)
    (metric : String) (st : CheckSt) (v : ℚ) (hget : cm.get metric = some v)
    (hth : thLt (get_threshold mgr cid metric) v = true)
    (hfind : dictFind? st.active (mkKey cid metric) = none) :
    processMetric mgr now cid cm metric st =
      { active := dictInsert st.active (mkKey cid metric)
          (mkNewAlert cid (cm.name.getD "unknown") metric (get_threshold mgr cid metric) v now)
        history := st.history ++
          [mkNewAlert cid (cm.name.getD "unknown") metric (get_threshold mgr cid metric) v now]
        new_alerts := st.new_alerts ++
          [mkNewAlert cid (cm.name.getD "unknown") metric (get_threshold mgr cid metric) v now]
        checked := (cid, metric) :: st.checked } := by
  simp [processMetric, hget, hth, hfind]

theorem processMetric_update (mgr : AlertManager) (now : ℚ) (cid : String) (cm : CMetrics)
    (metric : String) (st : CheckSt) (v : ℚ) (a0 : Alert) (hget : cm.get metric = some v)
    (hth : thLt (get_threshold mgr cid metric) v = true)
    (hfind : dictFind? st.active (mkKey cid metric) = some a0) :
    processMetric mgr now cid cm metric st =
      { st with active := dictInsert st.active (mkKey cid metric)
                  { a0 with value := v, last_updated := now }
              , checked := (cid, metric) :: st.checked } := by
  simp [processMetric, hget, hth, hfind]

theorem processMetric_resolve (mgr : AlertManager) (now : ℚ) (cid : String) (cm : CMetrics)
    (metric : String) (st : CheckSt) (v : ℚ) (a0 : Alert) (hget : cm.get metric = some v)
    (hth : thLt (get_threshold mgr cid metric) v = false)
    (hfind : dictFind? st.active (mkKey cid metric) = some a0) :
    processMetric mgr now cid cm metric st =
      { st with active := dictErase st.active (mkKey cid metric)
              , history := st.history ++ [resolvedCopy a0 now]
              , checked := (cid, metric) :: st.checked } := by
  simp [processMetric, hget, hth, hfind]

theorem processMetric_skip (mgr : AlertManager) (now : ℚ) (cid : String) (cm : CMetrics)
    (metric : String) (st : CheckSt) (v : ℚ) (hget : cm.get metric = some v)
    (hth : thLt (get_threshold mgr cid metric) v = false)
    (hfind : dictFind? st.active (mkKey cid metric) = none) :
    processMetric mgr now cid cm metric st =
      { st with checked := (cid, metric) :: st.checked } := by
  simp [processMetric, hget, hth, hfind]

-- ## Single-step lemmas about processMetric

theorem checked_processMetric (mgr : AlertManager) (now : ℚ) (cid : String) (cm : CMetrics)
    (metric : String) (st : CheckSt) :
    (processMetric mgr now cid cm metric st).checked =
      if (cm.get metric).isSome then (cid, metric) :: st.checked else st.checked := by
  cases hget : cm.get metric with
  | none => rw [processMetric_absent _ _ _ _ _ _ hget]; simp
  | some v =>
    cases hth : thLt (get_threshold mgr cid metric) v with
    | true =>
      cases hfind : dictFind? st.active (mkKey cid metric) with
      | none => rw [processMetric_create _ _ _ _ _ _ _ hget hth hfind]; simp
      | some a0 => rw [processMetric_update _ _ _ _ _ _ _ _ hget hth hfind]; simp
    | false =>
      cases hfind : dictFind? st.active (mkKey cid metric) with
      | none => rw [processMetric_skip _ _ _ _ _ _ _ hget hth hfind]; simp
      | some a0 => rw [processMetric_resolve _ _ _ _ _ _ _ _ hget hth hfind]; simp

theorem checked_mono_processMetric (mgr : AlertManager) (now : ℚ) (cid : String) (cm : CMetrics)
    (metric : String) (st : CheckSt) {x : String × String} (h : x ∈ st.checked) :
    x ∈ (processMetric mgr now cid cm metric st).checked := by
  rw [checked_processMetric]
  split
  · exact List.mem_cons_of_mem _ h
  · exact h

theorem checked_self_processMetric (mgr : AlertManager) (now : ℚ) (cid : String) (cm : CMetrics)
    (metric : String) (st : CheckSt) (h : (cm.get metric).isSome) :
    (cid, metric) ∈ (processMetric mgr now cid cm metric st).checked := by
  rw [checked_processMetric, if_pos h]
  exact List.mem_cons_self _ _

theorem mem_checked_processMetric (mgr : AlertManager) (now : ℚ) (cid : String) (cm : CMetrics)
    (metric : String) (st : CheckSt) {x : String × String}
    (h : x ∈ (processMetric mgr now cid cm metric st).checked) :
    x ∈ st.checked ∨ (x = (cid, metric) ∧ (cm.get metric).isSome) := by
  rw [checked_processMetric] at h
  by_cases hs : (cm.get metric).isSome
  · rw [if_pos hs] at h
    rcases List.mem_cons.1 h with h' | h'
    · exact Or.inr ⟨h', hs⟩
    · exact Or.inl h'
  · rw [if_neg hs] at h
    exact Or.inl h

theorem find?_processMetric_ne (mgr : AlertManager) (now : ℚ) (cid : String) (cm : CMetrics)
    (metric : String) (st : CheckSt) {k : String} (hk : k ≠ mkKey cid metric) :
    dictFind? (processMetric mgr now cid cm metric st).active k = dictFind? st.active k := by
  cases hget : cm.get metric with
  | none => rw [processMetric_absent _ _ _ _ _ _ hget]
  | some v =>
    cases hth : thLt (get_threshold mgr cid metric) v with
    | true =>
      cases hfind : dictFind? st.active (mkKey cid metric) with
      | none =>
        rw [processMetric_create _ _ _ _ _ _ _ hget hth hfind]
        exact dictFind?_dictInsert_ne _ _ _ _ hk
      | some a0 =>
        rw [processMetric_update _ _ _ _ _ _ _ _ hget hth hfind]
        exact dictFind?_dictInsert_ne _ _ _ _ hk
    | false =>
      cases hfind : dictFind? st.active (mkKey cid metric) with
      | none => rw [processMetric_skip _ _ _ _ _ _ _ hget hth hfind]
      | some a0 =>
        rw [processMetric_resolve _ _ _ _ _ _ _ _ hget hth hfind]
        exact dictFind?_dictErase_ne _ _ _ hk

theorem keys_processMetric_preserved (mgr : AlertManager) (now : ℚ) (cid : String) (cm : CMetrics)
    (metric : String) (st : CheckSt) {k : String} (hk : k ≠ mkKey cid metric)
    (h : k ∈ keys st.active) : k ∈ keys (processMetric mgr now cid cm metric st).active := by
  rw [← dictFind?_isSome_iff] at h ⊢
  rwa [find?_processMetric_ne _ _ _ _ _ _ hk]

theorem key_present_processMetric (mgr : AlertManager) (now : ℚ) (cid : String) (cm : CMetrics)
    (metric : String) (st : CheckSt) (v : ℚ) (hget : cm.get metric = some v)
    (hth : thLt (get_threshold mgr cid metric) v = true) :
    mkKey cid metric ∈ keys (processMetric mgr now cid cm metric st).active := by
  rw [← dictFind?_isSome_iff]
  cases hfind : dictFind? st.active (mkKey cid metric) with
  | none =>
    rw [processMetric_create _ _ _ _ _ _ _ hget hth hfind]
    simp [dictFind?_dictInsert_self]
  | some a0 =>
    rw [processMetric_update _ _ _ _ _ _ _ _ hget hth hfind]
    simp [dictFind?_dictInsert_self]

theorem no_new_processMetric (mgr : AlertManager) (now : ℚ) (cid : String) (cm : CMetrics)
    (metric : String) (st : CheckSt)
    (h : ∀ v, cm.get metric = some v → thLt (get_threshold mgr cid metric) v = true →
      mkKey cid metric ∈ keys st.active) :
    (processMetric mgr now cid cm metric st).new_alerts = st.new_alerts := by
  cases hget : cm.get metric with
  | none => rw [processMetric_absent _ _ _ _ _ _ hget]
  | some v =>
    cases hth : thLt (get_threshold mgr cid metric) v with
    | true =>
      cases hfind : dictFind? st.active (mkKey cid metric) with
      | none =>
        exact absurd ((dictFind?_eq_none_iff _ _).1 hfind) (fun hn => hn (h v hget hth))
      | some a0 => rw [processMetric_update _ _ _ _ _ _ _ _ hget hth hfind]
    | false =>
      cases hfind : dictFind? st.active (mkKey cid metric) with
      | none => rw [processMetric_skip _ _ _ _ _ _ _ hget hth hfind]
      | some a0 => rw [processMetric_resolve _ _ _ _ _ _ _ _ hget hth hfind]

theorem history_processMetric_prefix (mgr : AlertManager) (now : ℚ) (cid : String) (cm : CMetrics)
    (metric : String) (st : CheckSt) :
    ∃ l, (processMetric mgr now cid cm metric st).history = st.history ++ l := by
  cases hget : cm.get metric with
  | none => exact ⟨[], by rw [processMetric_absent _ _ _ _ _ _ hget]; simp⟩
  | some v =>
    cases hth : thLt (get_threshold mgr cid metric) v with
    | true =>
      cases hfind : dictFind? st.active (mkKey cid metric) with
      | none =>
        exact ⟨_, by rw [processMetric_create _ _ _ _ _ _ _ hget hth hfind]⟩
      | some a0 =>
        exact ⟨[], by rw [processMetric_update _ _ _ _ _ _ _ _ hget hth hfind]; simp⟩
    | false =>
      cases hfind : dictFind? st.active (mkKey cid metric) with
      | none => exact ⟨[], by rw [processMetric_skip _ _ _ _ _ _ _ hget hth hfind]; simp⟩
      | some a0 =>
        exact ⟨_, by rw [processMetric_resolve _ _ _ _ _ _ _ _ hget hth hfind]⟩

theorem new_sub_history_processMetric (mgr : AlertManager) (now : ℚ) (cid : String)
    (cm : CMetrics) (metric : String) (st : CheckSt)
    (h : ∀ a ∈ st.new_alerts, a ∈ st.history) :
    ∀ a ∈ (processMetric mgr now cid cm metric st).new_alerts,
      a ∈ (processMetric mgr now cid cm metric st).history := by
  cases hget : cm.get metric with
  | none => rw [processMetric_absent _ _ _ _ _ _ hget]; exact h
  | some v =>
    cases hth : thLt (get_threshold mgr cid metric) v with
    | true =>
      cases hfind : dictFind? st.active (mkKey cid metric) with
      | none =>
        rw [processMetric_create _ _ _ _ _ _ _ hget hth hfind]
        intro a ha
        simp only [List.mem_append, List.mem_singleton] at ha ⊢
        rcases ha with ha | ha
        · exact Or.inl (h a ha)
        · exact Or.inr ha
      | some a0 =>
        rw [processMetric_update _ _ _ _ _ _ _ _ hget hth hfind]
        exact h
    | false =>
      cases hfind : dictFind? st.active (mkKey cid metric) with
      | none => rw [processMetric_skip _ _ _ _ _ _ _ hget hth hfind]; exact h
      | some a0 =>
        rw [processMetric_resolve _ _ _ _ _ _ _ _ hget hth hfind]
        intro a ha
        exact List.mem_append_left _ (h a ha)

theorem count_processMetric (mgr : AlertManager) (now : ℚ) (cid : String) (cm : CMetrics)
    (metric : String) (st : CheckSt) :
    (processMetric mgr now cid cm metric st).history.length +
        (processMetric mgr now cid cm metric st).active.length +
        2 * st.new_alerts.length
      = st.history.length + st.active.length +
        2 * (processMetric mgr now cid cm metric st).new_alerts.length := by
  cases hget : cm.get metric with
  | none => rw [processMetric_absent _ _ _ _ _ _ hget]
  | some v =>
    cases hth : thLt (get_threshold mgr cid metric) v with
    | true =>
      cases hfind : dictFind? st.active (mkKey cid metric) with
      | none =>
        rw [processMetric_create _ _ _ _ _ _ _ hget hth hfind]
        simp [length_dictInsert_new _ _ _ hfind]
        omega
      | some a0 =>
        rw [processMetric_update _ _ _ _ _ _ _ _ hget hth hfind]
        simp [length_dictInsert_existing _ _ _ (by rw [hfind]; rfl)]
    | false =>
      cases hfind : dictFind? st.active (mkKey cid metric) with
      | none => rw [processMetric_skip _ _ _ _ _ _ _ hget hth hfind]
      | some a0 =>
        rw [processMetric_resolve _ _ _ _ _ _ _ _ hget hth hfind]
        have := length_dictErase_existing st.active (mkKey cid metric) (by rw [hfind]; rfl)
        simp only [CheckSt.mk.injEq] at *
        simp [List.length_append]
        omega

theorem activeWF_processMetric (mgr : AlertManager) (now : ℚ) (cid : String) (cm : CMetrics)
    (metric : String) (st : CheckSt) (hm : metric ∈ ML) (h : ActiveWF st.active) :
    ActiveWF (processMetric mgr now cid cm metric st).active := by
  obtain ⟨hnd, hent⟩ := h
  cases hget : cm.get metric with
  | none => rw [processMetric_absent _ _ _ _ _ _ hget]; exact ⟨hnd, hent⟩
  | some v =>
    cases hth : thLt (get_threshold mgr cid metric) v with
    | true =>
      cases hfind : dictFind? st.active (mkKey cid metric) with
      | none =>
        rw [processMetric_create _ _ _ _ _ _ _ hget hth hfind]
        refine ⟨nodup_keys_dictInsert _ _ _ hnd, ?_⟩
        intro kv hkv
        rcases mem_dictInsert hkv with h' | h'
        · exact hent kv h'
        · subst h'
          exact ⟨rfl, hm⟩
      | some a0 =>
        rw [processMetric_update _ _ _ _ _ _ _ _ hget hth hfind]
        refine ⟨nodup_keys_dictInsert _ _ _ hnd, ?_⟩
        intro kv hkv
        rcases mem_dictInsert hkv with h' | h'
        · exact hent kv h'
        · subst h'
          have := hent _ (dictFind?_mem hfind)
          exact this
    | false =>
      cases hfind : dictFind? st.active (mkKey cid metric) with
      | none => rw [processMetric_skip _ _ _ _ _ _ _ hget hth hfind]; exact ⟨hnd, hent⟩
      | some a0 =>
        rw [processMetric_resolve _ _ _ _ _ _ _ _ hget hth hfind]
        exact ⟨nodup_keys_dictErase _ _ hnd, fun kv hkv => hent kv (mem_dictErase hkv)⟩

-- ## Lemmas about one outer-loop iteration (processContainer)

theorem find?_processMetric_skipcase (mgr : AlertManager) (now : ℚ) (cid : String)
    (cm : CMetrics) (metric : String) (st : CheckSt) {k : String}
    (h : k ≠ mkKey cid metric ∨ cm.get metric = none) :
    dictFind? (processMetric mgr now cid cm metric st).active k = dictFind? st.active k := by
  rcases h with h | h
  · exact find?_processMetric_ne _ _ _ _ _ _ h
  · rw [processMetric_absent _ _ _ _ _ _ h]

theorem checked_mono_processContainer (mgr : AlertManager) (now : ℚ) (st : CheckSt)
    (e : String × CMetrics) {x : String × String} (h : x ∈ st.checked) :
    x ∈ (processContainer mgr now st e).checked :=
  checked_mono_processMetric _ _ _ _ _ _ (checked_mono_processMetric _ _ _ _ _ _ h)

theorem checked_self_processContainer (mgr : AlertManager) (now : ℚ) (st : CheckSt)
    (e : String × CMetrics) {metric : String} (hm : metric ∈ ML)
    (h : (e.2.get metric).isSome) : (e.1, metric) ∈ (processContainer mgr now st e).checked := by
  simp only [ML, List.mem_cons, List.not_mem_nil, or_false] at hm
  rcases hm with rfl | rfl
  · exact checked_mono_processMetric _ _ _ _ _ _ (checked_self_processMetric _ _ _ _ _ _ h)
  · exact checked_self_processMetric _ _ _ _ _ _ h

theorem mem_checked_processContainer (mgr : AlertManager) (now : ℚ) (st : CheckSt)
    (e : String × CMetrics) {x : String × String}
    (h : x ∈ (processContainer mgr now st e).checked) :
    x ∈ st.checked ∨ ∃ m ∈ ML, x = (e.1, m) ∧ (e.2.get m).isSome := by
  rcases mem_checked_processMetric _ _ _ _ _ _ h with h' | h'
  · rcases mem_checked_processMetric _ _ _ _ _ _ h' with h'' | h''
    · exact Or.inl h''
    · exact Or.inr ⟨"cpu_percent", by simp [ML], h''.1, h''.2⟩
  · exact Or.inr ⟨"memory_percent", by simp [ML], h'.1, h'.2⟩

theorem find?_processContainer_skipcase (mgr : AlertManager) (now : ℚ) (st : CheckSt)
    (e : String × CMetrics) {k : String}
    (hcpu : k ≠ mkKey e.1 "cpu_percent" ∨ e.2.get "cpu_percent" = none)
    (hmem : k ≠ mkKey e.1 "memory_percent" ∨ e.2.get "memory_percent" = none) :
    dictFind? (processContainer mgr now st e).active k = dictFind? st.active k := by
  rw [processContainer, find?_processMetric_skipcase _ _ _ _ _ _ hmem,
    find?_processMetric_skipcase _ _ _ _ _ _ hcpu]

theorem keys_processContainer_preserved (mgr : AlertManager) (now : ℚ) (st : CheckSt)
    (e : String × CMetrics) {k : String}
    (hcpu : k ≠ mkKey e.1 "cpu_percent") (hmem : k ≠ mkKey e.1 "memory_percent")
    (h : k ∈ keys st.active) : k ∈ keys (processContainer mgr now st e).active := by
  rw [← dictFind?_isSome_iff] at h ⊢
  rwa [find?_processContainer_skipcase _ _ _ _ (Or.inl hcpu) (Or.inl hmem)]

theorem key_present_processContainer (mgr : AlertManager) (now : ℚ) (st : CheckSt)
    (e : String × CMetrics) {metric : String} (hm : metric ∈ ML) {v : ℚ}
    (hget : e.2.get metric = some v)
    (hth : thLt (get_threshold mgr e.1 metric) v = true) :
    mkKey e.1 metric ∈ keys (processContainer mgr now st e).active := by
  simp only [ML, List.mem_cons, List.not_mem_nil, or_false] at hm
  rcases hm with rfl | rfl
  · exact keys_processMetric_preserved _ _ _ _ _ _ (mkKey_cross e.1 e.1)
      (key_present_processMetric _ _ _ _ _ _ _ hget hth)
  · exact key_present_processMetric _ _ _ _ _ _ _ hget hth

theorem no_new_processContainer (mgr : AlertManager) (now : ℚ) (st : CheckSt)
    (e : String × CMetrics)
    (h : ∀ m ∈ ML, ∀ v, e.2.get m = some v → thLt (get_threshold mgr e.1 m) v = true →
      mkKey e.1 m ∈ keys st.active) :
    (processContainer mgr now st e).new_alerts = st.new_alerts := by
  rw [processContainer, no_new_processMetric, no_new_processMetric]
  · intro v hget hth
    exact h "cpu_percent" (by simp [ML]) v hget hth
  · intro v hget hth
    exact keys_processMetric_preserved _ _ _ _ _ _
      (fun hx => mkKey_cross e.1 e.1 hx.symm)
      (h "memory_percent" (by simp [ML]) v hget hth)

theorem history_processContainer_prefix (mgr : AlertManager) (now : ℚ) (st : CheckSt)
    (e : String × CMetrics) :
    ∃ l, (processContainer mgr now st e).history = st.history ++ l := by
  obtain ⟨l1, h1⟩ := history_processMetric_prefix mgr now e.1 e.2 "cpu_percent" st
  obtain ⟨l2, h2⟩ :=
    history_processMetric_prefix mgr now e.1 e.2 "memory_percent"
      (processMetric mgr now e.1 e.2 "cpu_percent" st)
  exact ⟨l1 ++ l2, by rw [processContainer, h2, h1, List.append_assoc]⟩

theorem new_sub_history_processContainer (mgr : AlertManager) (now : ℚ) (st : CheckSt)
    (e : String × CMetrics) (h : ∀ a ∈ st.new_alerts, a ∈ st.history) :
    ∀ a ∈ (processContainer mgr now st e).new_alerts,
      a ∈ (processContainer mgr now st e).history :=
  new_sub_history_processMetric _ _ _ _ _ _
    (new_sub_history_processMetric _ _ _ _ _ _ h)

theorem count_processContainer (mgr : AlertManager) (now : ℚ) (st : CheckSt)
    (e : String × CMetrics) :
    (processContainer mgr now st e).history.length +
        (processContainer mgr now st e).active.length + 2 * st.new_alerts.length
      = st.history.length + st.active.length +
        2 * (processContainer mgr now st e).new_alerts.length := by
  have h1 := count_processMetric mgr now e.1 e.2 "cpu_percent" st
  have h2 := count_processMetric mgr now e.1 e.2 "memory_percent"
    (processMetric mgr now e.1 e.2 "cpu_percent" st)
  rw [processContainer]
  omega

theorem activeWF_processContainer (mgr : AlertManager) (now : ℚ) (st : CheckSt)
    (e : String × CMetrics) (h : ActiveWF st.active) :
    ActiveWF (processContainer mgr now st e).active :=
  activeWF_processMetric _ _ _ _ _ _ (by simp [ML]) (activeWF_processMetric _ _ _ _ _ _ (by simp [ML]) h)

-- ## Lemmas about the outer fold over the snapshot map

theorem checked_mono_fold (mgr : AlertManager) (now : ℚ) (l : List (String × CMetrics))
    (st : CheckSt) {x : String × String} (h : x ∈ st.checked) :
    x ∈ (l.foldl (processContainer mgr now) st).checked := by
  induction l generalizing st with
  | nil => exact h
  | cons e rest ih =>
    exact ih _ (checked_mono_processContainer _ _ _ _ h)

theorem mem_checked_fold (mgr : AlertManager) (now : ℚ) (l : List (String × CMetrics))
    (st : CheckSt) {x : String × String}
    (h : x ∈ (l.foldl (processContainer mgr now) st).checked) :
    x ∈ st.checked ∨ ∃ e ∈ l, ∃ m ∈ ML, x = (e.1, m) ∧ (e.2.get m).isSome := by
  induction l generalizing st with
  | nil => exact Or.inl h
  | cons e rest ih =>
    rcases ih _ h with h' | ⟨e', he', hrest⟩
    · rcases mem_checked_processContainer _ _ _ _ h' with h'' | ⟨m, hm, hx⟩
      · exact Or.inl h''
      · exact Or.inr ⟨e, List.mem_cons_self _ _, m, hm, hx⟩
    · exact Or.inr ⟨e', List.mem_cons_of_mem _ he', hrest⟩

theorem find?_fold_skipcase (mgr : AlertManager) (now : ℚ) (l : List (String × CMetrics))
    (st : CheckSt) {k : String}
    (h : ∀ e ∈ l, ∀ m ∈ ML, k ≠ mkKey e.1 m ∨ e.2.get m = none) :
    dictFind? (l.foldl (processContainer mgr now) st).active k = dictFind? st.active k := by
  induction l generalizing st with
  | nil => rfl
  | cons e rest ih =>
    rw [List.foldl_cons, ih _ (fun e' he' => h e' (List.mem_cons_of_mem _ he')),
      find?_processContainer_skipcase _ _ _ _
        (h e (List.mem_cons_self _ _) "cpu_percent" (by simp [ML]))
        (h e (List.mem_cons_self _ _) "memory_percent" (by simp [ML]))]

theorem keys_fold_preserved (mgr : AlertManager) (now : ℚ) (l : List (String × CMetrics))
    (st : CheckSt) {k : String}
    (h : ∀ e ∈ l, ∀ m ∈ ML, k ≠ mkKey e.1 m)
    (hk : k ∈ keys st.active) : k ∈ keys (l.foldl (processContainer mgr now) st).active := by
  rw [← dictFind?_isSome_iff] at hk ⊢
  rwa [find?_fold_skipcase _ _ _ _ (fun e he m hm => Or.inl (h e he m hm))]

theorem key_present_fold (mgr : AlertManager) (now : ℚ) (l : List (String × CMetrics))
    (st : CheckSt) {cid : String} {cm : CMetrics} {metric : String} {v : ℚ}
    (hnd : (keys l).Nodup) (hmem : (cid, cm) ∈ l) (hm : metric ∈ ML)
    (hget : cm.get metric = some v)
    (hth : thLt (get_threshold mgr cid metric) v = true) :
    mkKey cid metric ∈ keys (l.foldl (processContainer mgr now) st).active := by
  induction l generalizing st with
  | nil => cases hmem
  | cons e rest ih =>
    simp only [keys_cons, List.nodup_cons] at hnd
    rcases List.mem_cons.1 hmem with heq | hmem'
    · subst heq
      rw [List.foldl_cons]
      refine keys_fold_preserved _ _ _ _ ?_ (key_present_processContainer _ _ _ _ hm hget hth)
      intro e' he' m' hm'
      refine mkKey_ne_of_ne_container hm hm' ?_
      intro hc
      apply hnd.1
      have hmm : e'.1 ∈ keys rest := List.mem_map_of_mem Prod.fst he'
      simpa [hc] using hmm
    · exact ih (processContainer mgr now st e) hnd.2 hmem'

theorem no_new_fold (mgr : AlertManager) (now : ℚ) (l : List (String × CMetrics))
    (st : CheckSt) (hnd : (keys l).Nodup)
    (h : ∀ e ∈ l, ∀ m ∈ ML, ∀ v, e.2.get m = some v →
      thLt (get_threshold mgr e.1 m) v = true → mkKey e.1 m ∈ keys st.active) :
    (l.foldl (processContainer mgr now) st).new_alerts = st.new_alerts := by
  induction l generalizing st with
  | nil => rfl
  | cons e rest ih =>
    simp only [keys_cons, List.nodup_cons] at hnd
    rw [List.foldl_cons, ih _ hnd.2, no_new_processContainer _ _ _ _ (h e (List.mem_cons_self _ _))]
    intro e' he' m hm v hget hth
    refine keys_processContainer_preserved _ _ _ _ ?_ ?_
      (h e' (List.mem_cons_of_mem _ he') m hm v hget hth)
    · refine mkKey_ne_of_ne_container hm (by simp [ML]) ?_
      intro hc
      apply hnd.1
      rw [← hc]
      exact List.mem_map_of_mem Prod.fst he'
    · refine mkKey_ne_of_ne_container hm (by simp [ML]) ?_
      intro hc
      apply hnd.1
      rw [← hc]
      exact List.mem_map_of_mem Prod.fst he'

theorem history_fold_prefix (mgr : AlertManager) (now : ℚ) (l : List (String × CMetrics))
    (st : CheckSt) :
    ∃ l', (l.foldl (processContainer mgr now) st).history = st.history ++ l' := by
  induction l generalizing st with
  | nil => exact ⟨[], by simp⟩
  | cons e rest ih =>
    obtain ⟨l1, h1⟩ := history_processContainer_prefix mgr now st e
    obtain ⟨l2, h2⟩ := ih (processContainer mgr now st e)
    exact ⟨l1 ++ l2, by rw [List.foldl_cons, h2, h1, List.append_assoc]⟩

theorem new_sub_history_fold (mgr : AlertManager) (now : ℚ) (l : List (String × CMetrics))
    (st : CheckSt) (h : ∀ a ∈ st.new_alerts, a ∈ st.history) :
    ∀ a ∈ (l.foldl (processContainer mgr now) st).new_alerts,
      a ∈ (l.foldl (processContainer mgr now) st).history := by
  induction l generalizing st with
  | nil => exact h
  | cons e rest ih =>
    exact ih _ (new_sub_history_processContainer _ _ _ _ h)

theorem count_fold (mgr : AlertManager) (now : ℚ) (l : List (String × CMetrics)) (st : CheckSt) :
    (l.foldl (processContainer mgr now) st).history.length +
        (l.foldl (processContainer mgr now) st).active.length + 2 * st.new_alerts.length
      = st.history.length + st.active.length +
        2 * (l.foldl (processContainer mgr now) st).new_alerts.length := by
  induction l generalizing st with
  | nil => rfl
  | cons e rest ih =>
    have h1 := count_processContainer mgr now st e
    have h2 := ih (processContainer mgr now st e)
    rw [List.foldl_cons]
    omega

theorem activeWF_fold (mgr : AlertManager) (now : ℚ) (l : List (String × CMetrics))
    (st : CheckSt) (h : ActiveWF st.active) :
    ActiveWF (l.foldl (processContainer mgr now) st).active := by
  induction l generalizing st with
  | nil => exact h
  | cons e rest ih =>
    exact ih _ (activeWF_processContainer _ _ _ _ h)

-- ## Lemmas about eraseKeys and the auto-resolve pass

theorem dictFind?_eraseKeys_not_mem {V : Type} (ks : List String) (d : List (String × V))
    (k : String) (h : k ∉ ks) : dictFind? (eraseKeys ks d) k = dictFind? d k := by
  induction ks generalizing d with
  | nil => rfl
  | cons k0 ks' ih =>
    rw [eraseKeys, List.foldl_cons]
    have hk0 : k ≠ k0 := fun hh => h (hh ▸ List.mem_cons_self _ _)
    rw [show List.foldl dictErase (dictErase d k0) ks' = eraseKeys ks' (dictErase d k0) from rfl,
      ih _ (fun hh => h (List.mem_cons_of_mem _ hh)), dictFind?_dictErase_ne _ _ _ hk0]

theorem dictFind?_dictErase_self_nodup {V : Type} (d : List (String × V)) (k : String)
    (h : (keys d).Nodup) : dictFind? (dictErase d k) k = none := by
  induction d with
  | nil => rfl
  | cons kv rest ih =>
    simp only [keys_cons, List.nodup_cons] at h
    by_cases hk : kv.1 = k
    · rw [dictErase, if_pos hk, dictFind?_eq_none_iff]
      exact hk ▸ h.1
    · rw [dictErase, if_neg hk, dictFind?_cons, if_neg hk]
      exact ih h.2

theorem not_mem_keys_eraseKeys {V : Type} (ks : List String) (d : List (String × V))
    (k : String) (h : k ∉ keys d) : k ∉ keys (eraseKeys ks d) := by
  induction ks generalizing d with
  | nil => exact h
  | cons k0 ks' ih =>
    rw [eraseKeys, List.foldl_cons]
    exact ih (dictErase d k0) (fun hh => h (mem_keys_dictErase _ _ _ hh))

theorem dictFind?_eraseKeys_mem {V : Type} (ks : List String) (d : List (String × V))
    (k : String) (hnd : (keys d).Nodup) (h : k ∈ ks) :
    dictFind? (eraseKeys ks d) k = none := by
  induction ks generalizing d with
  | nil => cases h
  | cons k0 ks' ih =>
    rw [eraseKeys, List.foldl_cons]
    by_cases hmem : k ∈ ks'
    · exact ih (dictErase d k0) (nodup_keys_dictErase _ _ hnd) hmem
    · have hk : k = k0 := by
        rcases List.mem_cons.1 h with h' | h'
        · exact h'
        · exact absurd h' hmem
      subst hk
      rw [dictFind?_eq_none_iff]
      refine not_mem_keys_eraseKeys _ _ _ ?_
      rw [← dictFind?_eq_none_iff]
      exact dictFind?_dictErase_self_nodup _ _ hnd

theorem nodup_keys_eraseKeys {V : Type} (ks : List String) (d : List (String × V))
    (h : (keys d).Nodup) : (keys (eraseKeys ks d)).Nodup := by
  induction ks generalizing d with
  | nil => exact h
  | cons k0 ks' ih =>
    rw [eraseKeys, List.foldl_cons]
    exact ih _ (nodup_keys_dictErase _ _ h)

theorem mem_eraseKeys {V : Type} (ks : List String) (d : List (String × V)) {kv : String × V}
    (h : kv ∈ eraseKeys ks d) : kv ∈ d := by
  induction ks generalizing d with
  | nil => exact h
  | cons k0 ks' ih =>
    rw [eraseKeys, List.foldl_cons] at h
    exact mem_dictErase (ih _ h)

theorem keys_eraseKeys_preserved {V : Type} (ks : List String) (d : List (String × V))
    (k : String) (hk : k ∈ keys d) (hks : k ∉ ks) : k ∈ keys (eraseKeys ks d) := by
  rw [← dictFind?_isSome_iff] at hk ⊢
  rwa [dictFind?_eraseKeys_not_mem _ _ _ hks]

theorem length_eraseKeys {V : Type} (ks : List String) (d : List (String × V))
    (hnd : (keys d).Nodup) (hknd : ks.Nodup) (hsub : ∀ k ∈ ks, k ∈ keys d) :
    (eraseKeys ks d).length + ks.length = d.length := by
  induction ks generalizing d with
  | nil => simp [eraseKeys]
  | cons k0 ks' ih =>
    rw [eraseKeys, List.foldl_cons]
    simp only [List.nodup_cons] at hknd
    have hlen : d.length = (dictErase d k0).length + 1 :=
      length_dictErase_existing d k0 (by
        rw [dictFind?_isSome_iff]
        exact hsub k0 (List.mem_cons_self _ _))
    have hrest : ∀ k ∈ ks', k ∈ keys (dictErase d k0) := by
      intro k hk
      have hne : k ≠ k0 := fun hh => hknd.1 (hh ▸ hk)
      rw [← dictFind?_isSome_iff, dictFind?_dictErase_ne _ _ _ hne, dictFind?_isSome_iff]
      exact hsub k (List.mem_cons_of_mem _ hk)
    have := ih (dictErase d k0) (nodup_keys_dictErase _ _ hnd) hknd.2 hrest
    rw [show List.foldl dictErase (dictErase d k0) ks' = eraseKeys ks' (dictErase d k0) from rfl]
    simp only [List.length_cons]
    omega

theorem entries_eq_of_nodup {V : Type} {d : List (String × V)} {kv kv' : String × V}
    (hnd : (keys d).Nodup) (h : kv ∈ d) (h' : kv' ∈ d) (hk : kv.1 = kv'.1) : kv = kv' := by
  induction d with
  | nil => cases h
  | cons x rest ih =>
    simp only [keys_cons, List.nodup_cons] at hnd
    rcases List.mem_cons.1 h with rfl | hmem
    · rcases List.mem_cons.1 h' with rfl | hmem'
      · rfl
      · exact absurd (hk ▸ List.mem_map_of_mem Prod.fst hmem') hnd.1
    · rcases List.mem_cons.1 h' with rfl | hmem'
      · exact absurd (hk ▸ List.mem_map_of_mem Prod.fst hmem) hnd.1
      · exact ih hnd.2 hmem hmem'

theorem keys_map_of_fst {V : Type} (f : String × V → String × V)
    (hf : ∀ kv, (f kv).1 = kv.1) (l : List (String × V)) : keys (l.map f) = keys l := by
  induction l with
  | nil => rfl
  | cons kv rest ih => simp [keys, hf kv] at ih ⊢; exact ih

theorem new_alerts_autoResolve (now : ℚ) (st : CheckSt) :
    (autoResolve now st).new_alerts = st.new_alerts := rfl

theorem history_autoResolve (now : ℚ) (st : CheckSt) :
    (autoResolve now st).history =
      st.history ++ (st.active.filter (fun kv => ! checkedEntry st.checked kv)).map
        (fun kv => resolvedCopy kv.2 now) := rfl

theorem keys_activeMut (now : ℚ) (st : CheckSt) :
    keys (st.active.map
      (fun kv => if checkedEntry st.checked kv then kv else (kv.1, resolvedCopy kv.2 now)))
      = keys st.active := by
  refine keys_map_of_fst _ ?_ _
  intro kv
  by_cases h : checkedEntry st.checked kv <;> simp [h]

theorem activeWF_autoResolve (now : ℚ) (st : CheckSt) (h : ActiveWF st.active) :
    ActiveWF (autoResolve now st).active := by
  obtain ⟨hnd, hent⟩ := h
  constructor
  · refine nodup_keys_eraseKeys _ _ ?_
    rw [keys_activeMut]
    exact hnd
  · intro kv hkv
    have hmut := mem_eraseKeys _ _ hkv
    rcases List.mem_map.1 hmut with ⟨kv0, hkv0, heq⟩
    have h0 := hent kv0 hkv0
    by_cases hc : checkedEntry st.checked kv0
    · rw [if_pos hc] at heq
      exact heq ▸ h0
    · rw [if_neg hc] at heq
      subst heq
      exact ⟨h0.1, h0.2⟩

theorem key_kept_autoResolve (now : ℚ) (st : CheckSt) {kv : String × Alert}
    (h : ActiveWF st.active) (hmem : kv ∈ st.active)
    (hc : checkedEntry st.checked kv = true) :
    kv.1 ∈ keys (autoResolve now st).active := by
  obtain ⟨hnd, _⟩ := h
  refine keys_eraseKeys_preserved _ _ _ ?_ ?_
  · rw [keys_activeMut]
    exact List.mem_map_of_mem Prod.fst hmem
  · intro hks
    rcases List.mem_map.1 hks with ⟨kv', hkv', hkeq⟩
    have hkv'mem := List.mem_filter.1 hkv'
    have : kv' = kv := entries_eq_of_nodup hnd hkv'mem.1 hmem hkeq
    subst this
    rw [hc] at hkv'mem
    simp at hkv'mem

theorem stale_resolved_autoResolve (now : ℚ) (st : CheckSt) {kv : String × Alert}
    (h : ActiveWF st.active) (hmem : kv ∈ st.active)
    (hc : checkedEntry st.checked kv = false) :
    dictFind? (autoResolve now st).active kv.1 = none ∧
      resolvedCopy kv.2 now ∈ (autoResolve now st).history := by
  obtain ⟨hnd, _⟩ := h
  have hstale : kv ∈ st.active.filter (fun kv => ! checkedEntry st.checked kv) :=
    List.mem_filter.2 ⟨hmem, by rw [hc]; rfl⟩
  constructor
  · refine dictFind?_eraseKeys_mem _ _ _ ?_ ?_
    · rw [keys_activeMut]
      exact hnd
    · exact List.mem_map_of_mem Prod.fst hstale
  · rw [history_autoResolve]
    exact List.mem_append_right _ (List.mem_map_of_mem _ hstale)

theorem count_autoResolve (now : ℚ) (st : CheckSt) (h : ActiveWF st.active) :
    (autoResolve now st).history.length + (autoResolve now st).active.length
      = st.history.length + st.active.length := by
  obtain ⟨hnd, _⟩ := h
  have hmutlen : (st.active.map
      (fun kv => if checkedEntry st.checked kv then kv else (kv.1, resolvedCopy kv.2 now))).length
      = st.active.length := List.length_map _ _
  have hstale_sub : (st.active.filter (fun kv => ! checkedEntry st.checked kv)).Sublist st.active :=
    List.filter_sublist _
  have hks_nodup : ((st.active.filter (fun kv => ! checkedEntry st.checked kv)).map Prod.fst).Nodup :=
    (hstale_sub.map Prod.fst).nodup hnd
  have hks_sub : ∀ k ∈ (st.active.filter (fun kv => ! checkedEntry st.checked kv)).map Prod.fst,
      k ∈ keys (st.active.map
        (fun kv => if checkedEntry st.checked kv then kv else (kv.1, resolvedCopy kv.2 now))) := by
    intro k hk
    rw [keys_activeMut]
    rcases List.mem_map.1 hk with ⟨kv, hkv, hkeq⟩
    exact hkeq ▸ List.mem_map_of_mem Prod.fst (List.mem_filter.1 hkv).1
  have hlen := length_eraseKeys _ _ (by rw [keys_activeMut]; exact hnd) hks_nodup hks_sub
  rw [history_autoResolve]
  simp only [List.length_append, List.length_map] at *
  have : (autoResolve now st).active.length =
      (eraseKeys ((st.active.filter (fun kv => ! checkedEntry st.checked kv)).map Prod.fst)
        (st.active.map
          (fun kv => if checkedEntry st.checked kv then kv else (kv.1, resolvedCopy kv.2 now)))).length := rfl
  omega

theorem new_sub_history_autoResolve (now : ℚ) (st : CheckSt)
    (h : ∀ a ∈ st.new_alerts, a ∈ st.history) :
    ∀ a ∈ (autoResolve now st).new_alerts, a ∈ (autoResolve now st).history := by
  intro a ha
  rw [new_alerts_autoResolve] at ha
  rw [history_autoResolve]
  exact List.mem_append_left _ (h a ha)

-- ## Assembly lemmas for check_alerts

theorem check_alerts_active (mgr : AlertManager) (metrics : List (String × CMetrics)) (now : ℚ) :
    (check_alerts mgr metrics now).state.active_alerts =
      (autoResolve now (metrics.foldl (processContainer mgr now) (initSt mgr))).active := rfl

theorem check_alerts_history (mgr : AlertManager) (metrics : List (String × CMetrics)) (now : ℚ) :
    (check_alerts mgr metrics now).state.alert_history =
      (autoResolve now (metrics.foldl (processContainer mgr now) (initSt mgr))).history := rfl

theorem check_alerts_new (mgr : AlertManager) (metrics : List (String × CMetrics)) (now : ℚ) :
    (check_alerts mgr metrics now).new_alerts =
      (metrics.foldl (processContainer mgr now) (initSt mgr)).new_alerts := rfl

theorem get_threshold_check_alerts (mgr : AlertManager) (metrics : List (String × CMetrics))
    (now : ℚ) (cid metric : String) :
    get_threshold (check_alerts mgr metrics now).state cid metric = get_threshold mgr cid metric := rfl

theorem WF_check_alerts (mgr : AlertManager) (metrics : List (String × CMetrics)) (now : ℚ)
    (h : WF mgr) : WF (check_alerts mgr metrics now).state := by
  rw [WF, check_alerts_active]
  exact activeWF_autoResolve _ _ (activeWF_fold _ _ _ _ h)

theorem WF_freshManager : WF freshManager := by
  constructor
  · simp [freshManager]
  · intro kv hkv
    simp [freshManager] at hkv

theorem dictFind?_of_mem_nodup {V : Type} {d : List (String × V)} {k : String} {v : V}
    (hnd : (keys d).Nodup) (h : (k, v) ∈ d) : dictFind? d k = some v := by
  have hk : k ∈ keys d := List.mem_map_of_mem Prod.fst h
  rw [← dictFind?_isSome_iff] at hk
  cases hfind : dictFind? d k with
  | none => rw [hfind] at hk; cases hk
  | some v' =>
    have := entries_eq_of_nodup hnd (dictFind?_mem hfind) h rfl
    rw [Prod.mk.injEq] at this
    rw [this.2]

theorem checked_self_fold (mgr : AlertManager) (now : ℚ) (l : List (String × CMetrics))
    (st : CheckSt) {cid : String} {cm : CMetrics} {metric : String}
    (hmem : (cid, cm) ∈ l) (hm : metric ∈ ML) (h : (cm.get metric).isSome) :
    (cid, metric) ∈ (l.foldl (processContainer mgr now) st).checked := by
  induction l generalizing st with
  | nil => cases hmem
  | cons e rest ih =>
    rcases List.mem_cons.1 hmem with heq | hmem'
    · subst heq
      rw [List.foldl_cons]
      exact checked_mono_fold _ _ _ _ (checked_self_processContainer _ _ _ _ hm h)
    · exact ih (processContainer mgr now st e) hmem'

theorem active_after_check (mgr : AlertManager) (metrics : List (String × CMetrics)) (now : ℚ)
    (hWF : WF mgr) (hnd : (keys metrics).Nodup) {cid : String} {cm : CMetrics}
    {metric : String} {v : ℚ} (hmem : (cid, cm) ∈ metrics) (hm : metric ∈ ML)
    (hget : cm.get metric = some v) (hth : thLt (get_threshold mgr cid metric) v = true) :
    mkKey cid metric ∈ keys (check_alerts mgr metrics now).state.active_alerts := by
  rw [check_alerts_active]
  have hWF1 : ActiveWF (metrics.foldl (processContainer mgr now) (initSt mgr)).active :=
    activeWF_fold _ _ _ _ hWF
  have hkey := key_present_fold mgr now metrics (initSt mgr) hnd hmem hm hget hth
  rcases List.mem_map.1 hkey with ⟨kv, hkv, hkeq⟩
  have hent := hWF1.2 kv hkv
  have hpair := mkKey_inj hent.2 hm (hent.1.symm.trans hkeq)
  have hchecked : (kv.2.container_id, kv.2.metric) ∈
      (metrics.foldl (processContainer mgr now) (initSt mgr)).checked := by
    rw [hpair.1, hpair.2]
    exact checked_self_fold mgr now metrics (initSt mgr) hmem hm (by rw [hget]; rfl)
  have := key_kept_autoResolve now _ hWF1 hkv (by
    rw [checkedEntry]
    exact decide_eq_true hchecked)
  rwa [hkeq] at this

theorem activePairs_cons (kv : String × Alert) (rest : List (String × Alert)) :
    activePairs (kv :: rest) = (kv.2.container_id, kv.2.metric) :: activePairs rest := rfl

theorem activeWF_tail {kv : String × Alert} {rest : List (String × Alert)}
    (h : ActiveWF (kv :: rest)) : ActiveWF rest := by
  obtain ⟨hnd, hent⟩ := h
  simp only [keys_cons, List.nodup_cons] at hnd
  exact ⟨hnd.2, fun kv' hkv' => hent kv' (List.mem_cons_of_mem _ hkv')⟩

theorem activePairs_nodup {d : List (String × Alert)} (h : ActiveWF d) :
    (activePairs d).Nodup := by
  induction d with
  | nil => exact List.nodup_nil
  | cons kv rest ih =>
    rw [activePairs_cons, List.nodup_cons]
    refine ⟨?_, ih (activeWF_tail h)⟩
    intro hmem
    rcases List.mem_map.1 hmem with ⟨kv', hkv', hpair⟩
    simp only [Prod.mk.injEq] at hpair
    have hwf := h.2 kv (List.mem_cons_self _ _)
    have hwf' := h.2 kv' (List.mem_cons_of_mem _ hkv')
    have hkeq : kv'.1 = kv.1 := by
      rw [hwf.1, hwf'.1, hpair.1, hpair.2]
    have hnd := h.1
    simp only [keys_cons, List.nodup_cons] at hnd
    exact hnd.1 (hkeq ▸ List.mem_map_of_mem Prod.fst hkv')

theorem WF_runChecks (mgr : AlertManager) (inputs : List (List (String × CMetrics) × ℚ))
    (h : WF mgr) : WF (runChecks mgr inputs) := by
  induction inputs generalizing mgr with
  | nil => exact h
  | cons p rest ih => exact ih _ (WF_check_alerts _ _ _ h)

-- ## Claim theorems for the alert manager

/-- C1: for every sequence of `check_alerts` calls starting from a fresh
`AlertManager`, after each call the active-alert set holds at most one
active alert per `(container_id, metric)` pair (stated for an arbitrary
call sequence, hence for every prefix of any run). -/
theorem C1_at_most_one_active_alert_per_pair
    (inputs : List (List (String × CMetrics) × ℚ)) :
    (activePairs (runChecks freshManager inputs).active_alerts).Nodup :=
  activePairs_nodup (WF_runChecks freshManager inputs WF_freshManager)

/-- C2: calling `check_alerts` twice with the identical snapshot map
returns an empty new-alerts list the second time, for every well-formed
manager state and every snapshot map with duplicate-free container
keys (both facts hold for every state a Python `AlertManager` can be
in, since Python dict keys are unique). -/
theorem C2_check_alerts_idempotent (mgr : AlertManager) (metrics : List (String × CMetrics))
    (now1 now2 : ℚ) (hWF : WF mgr) (hnd : (keys metrics).Nodup) :
    (check_alerts (check_alerts mgr metrics now1).state metrics now2).new_alerts = [] := by
  rw [check_alerts_new, no_new_fold _ _ _ _ hnd]
  · rfl
  · intro e he m hm v hget hth
    have hth' : thLt (get_threshold mgr e.1 m) v = true := by
      rwa [get_threshold_check_alerts] at hth
    exact active_after_check mgr metrics now1 hWF hnd he hm hget hth'

/-- Closed witness for C2: a cpu alert fires for container A on the
first call; the identical second snapshot produces no new alerts. -/
theorem C2_check_alerts_idempotent_witness :
    (check_alerts (check_alerts freshManager snapA 0).state snapA 1).new_alerts = [] :=
  C2_check_alerts_idempotent freshManager snapA 0 1 WF_freshManager (by simp [snapA, keys])

/-- C3: every alert active before a `check_alerts` call whose
`(container_id, metric)` pair is absent from the incoming snapshot map
is auto-resolved by that call: its resolved copy (with `resolve_time`
set to the call's clock) is appended to the history and its key leaves
the active dict. -/
theorem C3_absent_pair_auto_resolved (mgr : AlertManager) (metrics : List (String × CMetrics))
    (now : ℚ) (k : String) (a : Alert) (hWF : WF mgr)
    (hmem : (k, a) ∈ mgr.active_alerts)
    (habs : ∀ cm, (a.container_id, cm) ∈ metrics → cm.get a.metric = none) :
    dictFind? (check_alerts mgr metrics now).state.active_alerts k = none ∧
      resolvedCopy a now ∈ (check_alerts mgr metrics now).state.alert_history := by
  have hent := hWF.2 _ hmem
  have hkk : k = mkKey a.container_id a.metric := hent.1
  have hml : a.metric ∈ ML := hent.2
  rw [check_alerts_active, check_alerts_history]
  have hskip : ∀ e ∈ metrics, ∀ m ∈ ML, k ≠ mkKey e.1 m ∨ e.2.get m = none := by
    intro e he m hm
    by_cases hc : e.1 = a.container_id
    · by_cases hmmet : m = a.metric
      · subst hmmet
        right
        apply habs e.2
        rw [← hc]
        exact he
      · left
        rw [hkk]
        intro hk
        exact hmmet ((mkKey_inj hml hm hk).2.symm)
    · left
      rw [hkk]
      intro hk
      exact hc ((mkKey_inj hml hm hk).1.symm)
  have hfold : dictFind? (metrics.foldl (processContainer mgr now) (initSt mgr)).active k
      = some a := by
    rw [find?_fold_skipcase _ _ _ _ hskip]
    exact dictFind?_of_mem_nodup hWF.1 hmem
  have hmem1 := dictFind?_mem hfold
  have hWF1 := activeWF_fold mgr now metrics (initSt mgr) hWF
  have hchk : checkedEntry (metrics.foldl (processContainer mgr now) (initSt mgr)).checked (k, a)
      = false := by
    rw [checkedEntry]
    apply decide_eq_false
    intro hin
    rcases mem_checked_fold _ _ _ _ hin with h0 | ⟨e, he, m, hm, hx, hsome⟩
    · exact List.not_mem_nil _ h0
    · simp only [Prod.mk.injEq] at hx
      have hnone := habs e.2 (by rw [hx.1]; exact he)
      rw [← hx.2, hnone] at hsome
      cases hsome
  exact stale_resolved_autoResolve now _ hWF1 hmem1 hchk

theorem WF_mgrA : WF mgrA := by
  refine ⟨by simp [mgrA, keys, freshManager], ?_⟩
  intro kv hkv
  simp only [mgrA] at hkv
  rcases List.mem_cons.1 hkv with rfl | h0
  · exact ⟨rfl, by simp [alertA, mkNewAlert, ML]⟩
  · cases h0

/-- Closed witness for C3: a manager with one active cpu alert for
container A sees an empty snapshot; the alert is auto-resolved. -/
theorem C3_absent_pair_auto_resolved_witness :
    dictFind? (check_alerts mgrA [] 7).state.active_alerts (mkKey "A" "cpu_percent") = none ∧
      resolvedCopy alertA 7 ∈ (check_alerts mgrA [] 7).state.alert_history :=
  C3_absent_pair_auto_resolved mgrA [] 7 (mkKey "A" "cpu_percent") alertA WF_mgrA
    (by simp [mgrA]) (fun cm h => by cases h)

/-- C10: `check_alerts` only ever appends to the alert history; the
number of appended entries is the number of new alerts plus the number
of alerts resolved by the call (counted as the drop in active-set size
corrected by the creations), and every returned new alert has its copy
in the history.  In-place updates of an already-active alert append
nothing, which the counting equation reflects. -/
theorem C10_history_append_only (mgr : AlertManager) (metrics : List (String × CMetrics))
    (now : ℚ) (hWF : WF mgr) :
    (∃ l, (check_alerts mgr metrics now).state.alert_history = mgr.alert_history ++ l) ∧
    ((check_alerts mgr metrics now).state.alert_history.length +
        (check_alerts mgr metrics now).state.active_alerts.length
      = mgr.alert_history.length + mgr.active_alerts.length +
        2 * (check_alerts mgr metrics now).new_alerts.length) ∧
    (∀ a ∈ (check_alerts mgr metrics now).new_alerts,
      a ∈ (check_alerts mgr metrics now).state.alert_history) := by
  rw [check_alerts_active, check_alerts_history, check_alerts_new]
  refine ⟨?_, ?_, ?_⟩
  · obtain ⟨l1, h1⟩ := history_fold_prefix mgr now metrics (initSt mgr)
    rw [history_autoResolve, h1]
    exact ⟨l1 ++ _, by rw [initSt, List.append_assoc]⟩
  · have hc1 := count_fold mgr now metrics (initSt mgr)
    have hc2 := count_autoResolve now _ (activeWF_fold mgr now metrics (initSt mgr) hWF)
    have h3 : (initSt mgr).history = mgr.alert_history := rfl
    have h4 : (initSt mgr).active = mgr.active_alerts := rfl
    have h5 : (initSt mgr).new_alerts.length = 0 := rfl
    rw [h3, h4, h5] at hc1
    omega
  · intro a ha
    refine new_sub_history_autoResolve now _ ?_ a ?_
    · refine new_sub_history_fold mgr now metrics (initSt mgr) ?_
      intro a' ha'
      simp [initSt] at ha'
    · rw [new_alerts_autoResolve]
      exact ha

/-- Closed witness for C10: the call that creates the cpu alert for A
appends exactly that one entry and returns it. -/
theorem C10_history_append_only_witness :
    (∃ l, (check_alerts freshManager snapA 0).state.alert_history
        = freshManager.alert_history ++ l) ∧
    ((check_alerts freshManager snapA 0).state.alert_history.length +
        (check_alerts freshManager snapA 0).state.active_alerts.length
      = freshManager.alert_history.length + freshManager.active_alerts.length +
        2 * (check_alerts freshManager snapA 0).new_alerts.length) ∧
    (∀ a ∈ (check_alerts freshManager snapA 0).new_alerts,
      a ∈ (check_alerts freshManager snapA 0).state.alert_history) :=
  C10_history_append_only freshManager snapA 0 WF_freshManager

-- ## Threshold lookup (C4)

/-- C4: `get_threshold` prefers the container-specific override, falls
back to the per-metric default, and returns `float('inf')` when the
metric is configured in neither map — and nothing compares greater than
that infinity, so no alert can ever fire for such a metric. -/
theorem C4_get_threshold_lookup (mgr : AlertManager) (cid metric : String) :
    (∀ ct v, dictFind? mgr.container_thresholds cid = some ct →
        dictFind? ct metric = some v → get_threshold mgr cid metric = Thresh.val v) ∧
    (∀ v, (∀ ct, dictFind? mgr.container_thresholds cid = some ct →
          dictFind? ct metric = none) →
        dictFind? mgr.default_thresholds metric = some v →
        get_threshold mgr cid metric = Thresh.val v) ∧
    ((∀ ct, dictFind? mgr.container_thresholds cid = some ct → dictFind? ct metric = none) →
      dictFind? mgr.default_thresholds metric = none →
      get_threshold mgr cid metric = Thresh.inf ∧
        ∀ value : ℚ, thLt (get_threshold mgr cid metric) value = false) := by
  refine ⟨?_, ?_, ?_⟩
  · intro ct v h1 h2
    simp [get_threshold, h1, h2]
  · intro v hover hdef
    cases hct : dictFind? mgr.container_thresholds cid with
    | none => simp [get_threshold, hct, hdef]
    | some ct => simp [get_threshold, hct, hover ct hct, hdef]
  · intro hover hdef
    have hinf : get_threshold mgr cid metric = Thresh.inf := by
      cases hct : dictFind? mgr.container_thresholds cid with
      | none => simp [get_threshold, hct, hdef]
      | some ct => simp [get_threshold, hct, hover ct hct, hdef]
    exact ⟨hinf, fun value => by rw [hinf]; rfl⟩

/-- Closed witness for C4: an override of 50 beats the default 80 for
container B; an unconfigured metric yields infinity and never fires. -/
theorem C4_get_threshold_lookup_witness :
    get_threshold (set_container_threshold freshManager "B" "memory_percent" 50) "B"
        "memory_percent" = Thresh.val 50 ∧
    get_threshold freshManager "B" "memory_percent" = Thresh.val 80 ∧
    get_threshold freshManager "X" "disk_percent" = Thresh.inf ∧
    thLt (get_threshold freshManager "X" "disk_percent") 1000000 = false := by
  refine ⟨?_, ?_, ?_, ?_⟩
  · exact (C4_get_threshold_lookup _ "B" "memory_percent").1 [("memory_percent", 50)] 50
      (by decide) (by decide)
  · exact (C4_get_threshold_lookup freshManager "B" "memory_percent").2.1 80
      (fun ct h => by simp [freshManager] at h) (by decide)
  · exact ((C4_get_threshold_lookup freshManager "X" "disk_percent").2.2
      (fun ct h => by simp [freshManager] at h) (by decide)).1
  · exact ((C4_get_threshold_lookup freshManager "X" "disk_percent").2.2
      (fun ct h => by simp [freshManager] at h) (by decide)).2 1000000

-- ## History buffer (C5)

theorem eraseIdx_zero_eq_tail {M : Type} (l : List M) : l.eraseIdx 0 = l.tail := by
  cases l <;> rfl

theorem histFold_no_evict {M : Type} (xs : List M) :
    ∀ l : List M, l.length + xs.length ≤ 1000 →
      List.foldl histAppend l xs = l ++ xs := by
  induction xs with
  | nil => intro l _; simp
  | cons x rest ih =>
    intro l h
    rw [List.foldl_cons]
    have hx : histAppend l x = l ++ [x] := by
      rw [histAppend]
      rw [if_neg]
      simp only [List.length_append, List.length_cons, List.length_nil]
      simp only [List.length_cons] at h
      omega
    rw [hx, ih (l ++ [x]) (by simp only [List.length_append, List.length_cons,
      List.length_nil, List.length_cons] at h ⊢; omega)]
    simp

/-- C5: the per-container history buffer never exceeds 1000 snapshots
after an update; after exactly 1001 appends into an empty buffer the
result is the tail of the append sequence, so the oldest entry is gone
and the insertion order of the remaining 1000 is preserved. -/
theorem C5_history_buffer_fifo :
    (∀ (M : Type) (buf : List M) (x : M), buf.length ≤ 1000 →
        (histAppend buf x).length ≤ 1000) ∧
    (∀ (M : Type) (xs : List M), xs.length = 1001 →
        List.foldl histAppend ([] : List M) xs = xs.tail) ∧
    (∀ (M : Type) (xs : List M) (x : M), xs.length = 1001 → xs.head? = some x →
        x ∉ xs.tail → x ∉ List.foldl histAppend ([] : List M) xs) := by
  have h1001 : ∀ (M : Type) (xs : List M), xs.length = 1001 →
      List.foldl histAppend ([] : List M) xs = xs.tail := by
    intro M xs h
    have hne : xs ≠ [] := by
      intro hnil
      rw [hnil] at h
      simp at h
    have hsplit : xs.dropLast ++ [xs.getLast hne] = xs := List.dropLast_append_getLast hne
    have hlen : xs.dropLast.length = 1000 := by
      rw [List.length_dropLast, h]
    rw [← hsplit, List.foldl_append, List.foldl_cons, List.foldl_nil,
      histFold_no_evict xs.dropLast [] (by rw [hlen]; simp)]
    simp only [List.nil_append]
    rw [histAppend]
    rw [if_pos (by simp [List.length_append, hlen])]
    rw [eraseIdx_zero_eq_tail]
  refine ⟨?_, h1001, ?_⟩
  · intro M buf x h
    have hlen : (buf ++ [x]).length = buf.length + 1 := by simp
    have htl : (buf ++ [x]).tail.length = (buf ++ [x]).length - 1 := List.length_tail _
    rw [histAppend]
    split
    · rw [eraseIdx_zero_eq_tail]
      omega
    · omega
  · intro M xs x hlen _ htail
    rw [h1001 M xs hlen]
    exact htail

/-- Closed witness for C5: a full buffer stays at 1000 after one more
append, and 1001 appends of `0, 1, 1, ...` leave the buffer without the
initial `0`. -/
theorem C5_history_buffer_fifo_witness :
    (histAppend (List.replicate 1000 (0 : ℕ)) 7).length ≤ 1000 ∧
    List.foldl histAppend ([] : List ℕ) (0 :: List.replicate 1000 1)
      = (0 :: List.replicate 1000 1).tail ∧
    (0 : ℕ) ∉ List.foldl histAppend ([] : List ℕ) (0 :: List.replicate 1000 1) :=
  ⟨C5_history_buffer_fifo.1 ℕ (List.replicate 1000 0) 7
     (by rw [List.length_replicate]),
   C5_history_buffer_fifo.2.1 ℕ (0 :: List.replicate 1000 1)
     (by rw [List.length_cons, List.length_replicate]),
   C5_history_buffer_fifo.2.2 ℕ (0 :: List.replicate 1000 1) 0
     (by rw [List.length_cons, List.length_replicate]) rfl
     (by
       rw [List.tail_cons]
       intro hm
       exact absurd (List.eq_of_mem_replicate hm) (by norm_num))⟩

-- ## Adaptive refresh interval (C6)

theorem tickAdjust_slow (interval : ℤ) (consecutive : ℕ) (t : ℚ)
    (h1 : (interval : ℚ) < t) (h2 : 2 ≤ consecutive) :
    tickAdjust interval consecutive t = (pyInt (t * (12 / 10)), consecutive + 1) := by
  have h3 : 3 ≤ consecutive + 1 := by omega
  simp [tickAdjust, h1, h3]

theorem tickAdjust_fast (interval : ℤ) (consecutive : ℕ) (t : ℚ) (h : t ≤ (interval : ℚ)) :
    tickAdjust interval consecutive t = (interval, 0) := by
  simp [tickAdjust, not_lt.2 h]

/-- C6: a third consecutive slow tick sets the interval to
`int(collection_time * 1.2)` — within 1 below the exact `1.2 ×`
elapsed time — a fast tick resets the consecutive-slow counter, and the
spec scenario 5s-interval / 7s, 8s, 9s collections lands on
`int(10.8) = 10` seconds. -/
theorem C6_adaptive_interval :
    (∀ (interval : ℤ) (consecutive : ℕ) (t : ℚ), (interval : ℚ) < t → 2 ≤ consecutive →
        tickAdjust interval consecutive t = (pyInt (t * (12 / 10)), consecutive + 1)) ∧
    (∀ (interval : ℤ) (consecutive : ℕ) (t : ℚ), t ≤ (interval : ℚ) →
        tickAdjust interval consecutive t = (interval, 0)) ∧
    runTicks (5, 0) [7, 8, 9] = (10, 3) ∧
    (∀ (interval : ℤ) (consecutive : ℕ) (t : ℚ), (interval : ℚ) < t → 2 ≤ consecutive →
        0 ≤ t →
        t * (12 / 10) - 1 < ((tickAdjust interval consecutive t).1 : ℚ) ∧
          ((tickAdjust interval consecutive t).1 : ℚ) ≤ t * (12 / 10)) := by
  refine ⟨tickAdjust_slow, tickAdjust_fast, ?_, ?_⟩
  · have s1 : tickAdjust 5 0 7 = (5, 1) := by norm_num [tickAdjust]
    have s2 : tickAdjust 5 1 8 = (5, 2) := by norm_num [tickAdjust]
    have s3 : tickAdjust 5 2 9 = (10, 3) := by
      rw [tickAdjust_slow 5 2 9 (by norm_num) (by norm_num)]
      have : ((9 : ℚ) * (12 / 10)) = 54 / 5 := by norm_num
      rw [this, pyInt, if_neg (by norm_num)]
      norm_num [Int.floor_eq_iff]
    rw [runTicks]
    simp only [List.foldl_cons, List.foldl_nil]
    rw [show tickAdjust (5, 0).1 (5, 0).2 7 = tickAdjust 5 0 7 from rfl, s1,
      show tickAdjust (5, 1).1 (5, 1).2 8 = tickAdjust 5 1 8 from rfl, s2,
      show tickAdjust (5, 2).1 (5, 2).2 9 = tickAdjust 5 2 9 from rfl, s3]
  · intro interval consecutive t h1 h2 h3
    rw [tickAdjust_slow interval consecutive t h1 h2]
    have hq : 0 ≤ t * (12 / 10) := by positivity
    rw [pyInt, if_neg (not_lt.2 hq)]
    exact ⟨Int.sub_one_lt_floor _, Int.floor_le _⟩

/-- Closed witness for C6: the slow-tick update at interval 5, counter
2 and a 9-second collection, a fast-tick reset, and the floor bounds at
that input. -/
theorem C6_adaptive_interval_witness :
    tickAdjust 5 2 9 = (pyInt ((9 : ℚ) * (12 / 10)), 3) ∧
    tickAdjust 5 1 3 = (5, 0) ∧
    ((9 : ℚ) * (12 / 10) - 1 < ((tickAdjust 5 2 9).1 : ℚ) ∧
      ((tickAdjust 5 2 9).1 : ℚ) ≤ (9 : ℚ) * (12 / 10)) :=
  ⟨C6_adaptive_interval.1 5 2 9 (by norm_num) (by norm_num),
   C6_adaptive_interval.2.1 5 1 3 (by norm_num),
   C6_adaptive_interval.2.2.2 5 2 9 (by norm_num) (by norm_num) (by norm_num)⟩

-- ## CPU and memory percent derivations (C7, C8)

theorem onlineCpus_eq (b : StatsBlob) :
    onlineCpus b = if ocReported b ≠ 0 then ocReported b
      else if percpuLen b ≠ 0 then percpuLen b else 1 := by
  rcases b with ⟨cs, pcs, ms⟩
  rcases cs with _ | ⟨cu, su, oc⟩
  · simp [onlineCpus, ocReported, percpuLen]
  · rcases oc with _ | n
    · rcases cu with _ | ⟨tu, pu⟩
      · simp [onlineCpus, ocReported, percpuLen]
      · rcases pu with _ | l
        · simp [onlineCpus, ocReported, percpuLen]
        · by_cases hl : l.length = 0 <;>
            simp [onlineCpus, ocReported, percpuLen, hl]
    · by_cases hn : n = 0
      · subst hn
        rcases cu with _ | ⟨tu, pu⟩
        · simp [onlineCpus, ocReported, percpuLen]
        · rcases pu with _ | l
          · simp [onlineCpus, ocReported, percpuLen]
          · by_cases hl : l.length = 0 <;>
              simp [onlineCpus, ocReported, percpuLen, hl]
      · simp [onlineCpus, ocReported, percpuLen, hn]

theorem cpuPercentOf_eq (b : StatsBlob) :
    cpuPercentOf b =
      if sysUsage b.cpu_stats ≠ 0 ∧ sysUsage b.precpu_stats ≠ 0 ∧
          0 < sysDelta b ∧ 0 < cpuDelta b
      then (cpuDelta b : ℚ) / (sysDelta b : ℚ) * (onlineCpus b : ℚ) * 100
      else 0 := by
  rw [cpuPercentOf]
  simp only [sysDelta, cpuDelta]
  split_ifs <;> first | rfl | tauto

/-- C7 counterexample: in `blobPreAbsent` both deltas are positive (50
and 100) and the online count is 1, so the claimed formula gives 50,
but the code returns 0 because the previous system counter is absent
(defaulted to 0, hence falsy). -/
theorem C7_cpu_percent_counterexample :
    cpuDelta blobPreAbsent = 50 ∧ sysDelta blobPreAbsent = 100 ∧
    onlineCpus blobPreAbsent = 1 ∧
    (cpuDelta blobPreAbsent : ℚ) / (sysDelta blobPreAbsent : ℚ) *
        (onlineCpus blobPreAbsent : ℚ) * 100 = 50 ∧
    cpuPercentOf blobPreAbsent = 0 := by
  refine ⟨rfl, rfl, rfl, by norm_num [cpuDelta, sysDelta, blobPreAbsent, totalUsage,
    sysUsage, onlineCpus], ?_⟩
  rw [cpuPercentOf_eq]
  rw [if_neg]
  intro h
  exact h.2.1 rfl

/-- C7 (amended): the CPU percentage equals
`cpu_delta / system_delta × online_cpus × 100` when, in addition to
both deltas being positive, both the current and the previous
cumulative system counters are present and nonzero; in every other
case (either delta non-positive, or either system counter zero/absent)
it is 0.  The online count is the reported `online_cpus` when nonzero,
else the per-core array length when nonzero, else 1. -/
theorem C7_cpu_percent_derivation (b : StatsBlob) :
    (sysUsage b.cpu_stats ≠ 0 → sysUsage b.precpu_stats ≠ 0 → 0 < sysDelta b →
        0 < cpuDelta b →
        cpuPercentOf b = (cpuDelta b : ℚ) / (sysDelta b : ℚ) * (onlineCpus b : ℚ) * 100) ∧
    (sysDelta b ≤ 0 ∨ cpuDelta b ≤ 0 ∨ sysUsage b.cpu_stats = 0 ∨
        sysUsage b.precpu_stats = 0 →
        cpuPercentOf b = 0) ∧
    onlineCpus b = (if ocReported b ≠ 0 then ocReported b
      else if percpuLen b ≠ 0 then percpuLen b else 1) := by
  refine ⟨?_, ?_, onlineCpus_eq b⟩
  · intro h1 h2 h3 h4
    rw [cpuPercentOf_eq, if_pos ⟨h1, h2, h3, h4⟩]
  · intro h
    rw [cpuPercentOf_eq, if_neg]
    intro hc
    rcases h with h | h | h | h
    · exact absurd hc.2.2.1 (not_lt.2 h)
    · exact absurd hc.2.2.2 (not_lt.2 h)
    · exact hc.1 h
    · exact hc.2.1 h

/-- Closed witness for C7 (amended): a well-formed two-sample blob
yields `100/200 × 2 × 100 = 100`, and the pre-counter-absent blob
yields 0. -/
theorem C7_cpu_percent_derivation_witness :
    cpuPercentOf blobTwoCore = 100 ∧ cpuPercentOf blobPreAbsent = 0 := by
  constructor
  · have h := (C7_cpu_percent_derivation blobTwoCore).1 (by norm_num [sysUsage, blobTwoCore])
      (by norm_num [sysUsage, blobTwoCore])
      (by norm_num [sysDelta, sysUsage, blobTwoCore])
      (by norm_num [cpuDelta, totalUsage, blobTwoCore])
    rw [h]
    norm_num [cpuDelta, sysDelta, totalUsage, sysUsage, onlineCpus, blobTwoCore]
  · exact (C7_cpu_percent_derivation blobPreAbsent).2.1
      (Or.inr (Or.inr (Or.inr rfl)))

/-- C8 counterexample: `blobNoLimit` has a present `memory_stats` dict
with `usage = 5` and no `limit` key; the claim says the percentage must
be 0, but the code defaults the limit to 1 and returns 500. -/
theorem C8_memory_percent_counterexample :
    blobNoLimit.memory_stats = some { usage := some 5, limit := none } ∧
    memPercentOf blobNoLimit = 500 ∧ ¬ memPercentOf blobNoLimit = 0 := by
  refine ⟨rfl, ?_, ?_⟩
  · norm_num [memPercentOf, blobNoLimit]
  · norm_num [memPercentOf, blobNoLimit]

/-- C8 (amended): the memory percentage is `usage / limit × 100`
computed with `usage` defaulting to 0 and `limit` defaulting to 1 when
the respective key is absent from a present `memory_stats` dict (so an
absent limit yields `usage × 100`, not 0); it is 0 when the defaulted
limit is non-positive (an explicit zero/negative limit) or when
`memory_stats` is absent or empty. -/
theorem C8_memory_percent_derivation (b : StatsBlob) :
    (∀ ms, b.memory_stats = some ms → 0 < ms.limit.getD 1 →
        memPercentOf b = (ms.usage.getD 0 : ℚ) / (ms.limit.getD 1 : ℚ) * 100) ∧
    (∀ ms, b.memory_stats = some ms → ms.limit.getD 1 ≤ 0 → memPercentOf b = 0) ∧
    (b.memory_stats = none → memPercentOf b = 0) := by
  refine ⟨?_, ?_, ?_⟩
  · intro ms hms hlim
    rw [memPercentOf]
    rw [hms]
    simp only [hlim, if_pos]
  · intro ms hms hlim
    rw [memPercentOf]
    rw [hms]
    simp only [if_neg (not_lt.2 hlim)]
  · intro hms
    rw [memPercentOf, hms]

/-- Closed witness for C8 (amended): usage 50 of limit 200 gives 25
percent, an explicit zero limit gives 0, and an absent dict gives 0. -/
theorem C8_memory_percent_derivation_witness :
    memPercentOf blobMem = 25 ∧ memPercentOf blobZeroLimit = 0 ∧
    memPercentOf (StatsBlob.mk none none none) = 0 :=
  ⟨((C8_memory_percent_derivation blobMem).1 { usage := some 50, limit := some 200 } rfl
      (by norm_num)).trans (by norm_num),
   (C8_memory_percent_derivation blobZeroLimit).2.1 { usage := some 5, limit := some 0 } rfl
     (by norm_num),
   (C8_memory_percent_derivation (StatsBlob.mk none none none)).2.2 rfl⟩

-- ## Aggregation with per-container failures (C9)

theorem mem_keys_collect_aux (fetch : String → Option Stats) (now : ℚ)
    (l : List ContainerD) (acc : List (String × SnapMetrics)) (cid : String) :
    cid ∈ keys (l.foldl (collectStep fetch now) acc) ↔
      cid ∈ keys acc ∨ ∃ c ∈ l, c.idd = cid ∧ (fetch c.idd).isSome := by
  induction l generalizing acc with
  | nil => simp
  | cons c rest ih =>
    rw [List.foldl_cons, ih]
    cases hf : fetch c.idd with
    | none =>
      have hstep : collectStep fetch now acc c = acc := by
        rw [collectStep]
        simp [collectOne, hf]
      rw [hstep]
      constructor
      · intro h
        rcases h with h | ⟨c', hc', hrest⟩
        · exact Or.inl h
        · exact Or.inr ⟨c', List.mem_cons_of_mem _ hc', hrest⟩
      · intro h
        rcases h with h | ⟨c', hc', heq, hsome⟩
        · exact Or.inl h
        · rcases List.mem_cons.1 hc' with rfl | hc''
          · rw [hf] at hsome
            cases hsome
          · exact Or.inr ⟨c', hc'', heq, hsome⟩
    | some st =>
      have hstep : collectStep fetch now acc c =
          dictInsert acc c.idd ((collectOne fetch now c).2.getD
            { idd := c.idd, name := containerName c, status := c.state
              cpu_percent := st.cpu_percent, memory_usage := st.memory_usage
              memory_percent := st.memory_percent, network_rx := st.network_rx
              network_tx := st.network_tx, timestamp := now }) := by
        rw [collectStep]
        simp [collectOne, hf]
      rw [hstep]
      constructor
      · intro h
        rcases h with h | ⟨c', hc', hrest⟩
        · rcases (mem_keys_dictInsert _ _ _ _).1 h with h' | h'
          · exact Or.inl h'
          · exact Or.inr ⟨c, List.mem_cons_self _ _, h'.symm, by rw [hf]; rfl⟩
        · exact Or.inr ⟨c', List.mem_cons_of_mem _ hc', hrest⟩
      · intro h
        rcases h with h | ⟨c', hc', heq, hsome⟩
        · exact Or.inl ((mem_keys_dictInsert _ _ _ _).2 (Or.inl h))
        · rcases List.mem_cons.1 hc' with rfl | hc''
          · exact Or.inl ((mem_keys_dictInsert _ _ _ _).2 (Or.inr heq.symm))
          · exact Or.inr ⟨c', hc'', heq, hsome⟩

/-- C9: the aggregated per-tick snapshot map has an entry for a
container id exactly when some listed container carries that id and its
stats fetch succeeded — failing containers are omitted and never
disturb the successful ones, and no failure aborts the aggregation. -/
theorem C9_collect_omits_exactly_failures (fetch : String → Option Stats) (now : ℚ)
    (containers : List ContainerD) (cid : String) :
    (dictFind? (collectMetrics fetch now containers) cid).isSome
      ↔ ∃ c ∈ containers, c.idd = cid ∧ (fetch cid).isSome := by
  rw [dictFind?_isSome_iff, collectMetrics, mem_keys_collect_aux]
  constructor
  · intro h
    rcases h with h | ⟨c, hc, heq, hsome⟩
    · simp at h
    · exact ⟨c, hc, heq, heq ▸ hsome⟩
  · intro ⟨c, hc, heq, hsome⟩
    exact Or.inr ⟨c, hc, heq, heq ▸ hsome⟩

end DockerMonitor
